import Mathlib

/-!
Shallow embedding of the crawl-and-persist pipeline of `generate_ics_bulk.py`
(fixture crawler: SQLite-backed get-or-create repository, retrying fetcher,
ICS artifact generator), together with proofs of the specification claims.

Modelling conventions:
* the SQLite tables are lists of row structures; `INSERT` appends, AUTOINCREMENT
  ids are `max existing id + 1`, `SELECT ... WHERE key = ?` is `List.find?`
  in row order;
* `INSERT OR IGNORE` is modelled by checking the row's unique columns against
  the table before appending;
* Python code that can raise on a given input (e.g. `cur.fetchone()[0]` when
  the select returns no row) returns `none` in that case;
* each repository helper commits its writes immediately (as the source does via
  `conn.commit()`), so the `DB` value threaded through the crawl is always the
  committed state, also when a later step fails;
* `datetime` values are an instant (minutes since epoch, UTC) together with a
  `utcoffset` in minutes; a `tzinfo` is its offset as a function of the
  instant; `isoformat` renders the wall-clock field block as the decimal
  minute count followed by `+` and the offset (the calendar field layout of
  ISO-8601 is abstracted to a single number, the offset suffix is kept).
-/

/-! ### slugify -/

/-- Python's `\w` of `re` restricted to ASCII: letters, digits, underscore. -/
def isWordChar (c : Char) : Bool := c.isAlphanum || c == '_'

/-- Python's `str.strip`: drop leading and trailing characters satisfying `p`. -/
def stripChars (p : Char → Bool) (l : List Char) : List Char :=
  ((l.dropWhile p).reverse.dropWhile p).reverse

/-- Model of `re.sub(r"\W+", "_", ·)`: each maximal run of non-word characters becomes a
single underscore.  The boolean records whether the previous character was part
of a non-word run. -/
def collapseNonWord : Bool → List Char → List Char
  | _, [] => []
  | prevNonWord, c :: rest =>
    if isWordChar c then c :: collapseNonWord false rest
    else if prevNonWord then collapseNonWord true rest
    else '_' :: collapseNonWord true rest

/-- Function `slugify` from the source:
`re.sub(r"\W+", "_", text.strip().lower()).strip("_")`. -/
def slugify (text : String) : String :=
  String.mk (stripChars (fun c => c == '_')
    (collapseNonWord false ((stripChars Char.isWhitespace text.toList).map Char.toLower)))

/-! ### Relational schema (`init_db`) -/

/-- Row of `league_group(id, name UNIQUE, slug UNIQUE)`. -/
structure LeagueGroupRow where
  id : Nat
  name : String
  slug : String
deriving DecidableEq

/-- Row of `venue(id, url UNIQUE, name, address)`. -/
structure VenueRow where
  id : Nat
  url : String
  name : String
  address : String
deriving DecidableEq

/-- Row of `league(id, league_group_id FK, name, url UNIQUE, slug UNIQUE)`. -/
structure LeagueRow where
  id : Nat
  leagueGroupId : Nat
  name : String
  url : String
  slug : String
deriving DecidableEq

/-- Row of `team(id, name UNIQUE, slug UNIQUE)`. -/
structure TeamRow where
  id : Nat
  name : String
  slug : String
deriving DecidableEq

/-- Row of `fixture(id, league_id FK, venue_id FK NULLABLE, home_team_id FK,
away_team_id FK, dt_utc TEXT, result NULLABLE,
UNIQUE(league_id, home_team_id, away_team_id, dt_utc))`. -/
structure FixtureRow where
  id : Nat
  leagueId : Nat
  venueId : Option Nat
  homeTeamId : Nat
  awayTeamId : Nat
  dtUtc : String
  result : Option String
deriving DecidableEq

/-- The five tables created by `init_db`. -/
structure DB where
  leagueGroups : List LeagueGroupRow
  venues : List VenueRow
  leagues : List LeagueRow
  teams : List TeamRow
  fixtures : List FixtureRow
deriving DecidableEq

def dbEmpty : DB := ⟨[], [], [], [], []⟩

/-- AUTOINCREMENT: one more than the largest id in use. -/
def nextIdOf (ids : List Nat) : Nat := ids.foldr max 0 + 1

def nextLeagueGroupId (db : DB) : Nat := nextIdOf (db.leagueGroups.map (·.id))

def nextVenueId (db : DB) : Nat := nextIdOf (db.venues.map (·.id))

def nextLeagueId (db : DB) : Nat := nextIdOf (db.leagues.map (·.id))

def nextTeamId (db : DB) : Nat := nextIdOf (db.teams.map (·.id))

def nextFixtureId (db : DB) : Nat := nextIdOf (db.fixtures.map (·.id))

/-! ### Repository helpers

Each helper returns the committed database state together with the value the
Python function produces; `none` in the second component models the
`cur.fetchone()[0]` `TypeError` (for the get-or-create helpers on a `SELECT`
that finds no row) or the caught/indicated failure (`insert_fixture`,
`get_or_create_venue`). -/

/-- Helper `get_or_create_league_group`: `INSERT OR IGNORE INTO league_group(name, slug)`
then `SELECT id FROM league_group WHERE slug = ?`. -/
def get_or_create_league_group (db : DB) (group_name : String) : DB × Option Nat :=
  let slug := slugify group_name
  let db1 :=
    if db.leagueGroups.any (fun r => r.name == group_name || r.slug == slug) then db
    else { db with leagueGroups :=
            db.leagueGroups ++ [⟨nextLeagueGroupId db, group_name, slug⟩] }
  (db1, (db1.leagueGroups.find? (fun r => r.slug == slug)).map (·.id))

/-- Helper `get_or_create_league`: `INSERT OR IGNORE INTO league(league_group_id, name,
url, slug)` then `SELECT id FROM league WHERE slug = ?`.  A row skipped for a
unique-column conflict is never inserted, so its foreign key is not checked; a
genuinely new row whose `league_group_id` does not exist raises (FK violations
are not downgraded by `OR IGNORE`), modelled as `none` with no insert. -/
def get_or_create_league (db : DB) (group_id : Nat) (league_name league_url : String) :
    DB × Option Nat :=
  let slug := slugify league_name
  if db.leagues.any (fun r => r.url == league_url || r.slug == slug) then
    (db, (db.leagues.find? (fun r => r.slug == slug)).map (·.id))
  else if db.leagueGroups.any (fun r => r.id == group_id) then
    let db1 := { db with leagues :=
      db.leagues ++ [⟨nextLeagueId db, group_id, league_name, league_url, slug⟩] }
    (db1, (db1.leagues.find? (fun r => r.slug == slug)).map (·.id))
  else (db, none)

/-- The dict produced by `extract_fixtures_from_league` for the venue. -/
structure VenueDict where
  name : String
  url : Option String
  address : String
deriving DecidableEq

/-- Helper `get_or_create_venue`: returns `None` without touching the table when the
dict has no url; otherwise `INSERT OR IGNORE INTO venue(url, name, address)`
then `SELECT id FROM venue WHERE url = ?` (`row[0] if row else None`). -/
def get_or_create_venue (db : DB) (venue : VenueDict) : DB × Option Nat :=
  match venue.url with
  | none => (db, none)
  | some url =>
    let db1 :=
      if db.venues.any (fun r => r.url == url) then db
      else { db with venues := db.venues ++ [⟨nextVenueId db, url, venue.name, venue.address⟩] }
    (db1, (db1.venues.find? (fun r => r.url == url)).map (·.id))

/-- Helper `get_or_create_team`: `INSERT OR IGNORE INTO team(name, slug)` then
`SELECT id FROM team WHERE slug = ?`. -/
def get_or_create_team (db : DB) (team_name : String) : DB × Option Nat :=
  let slug := slugify team_name
  let db1 :=
    if db.teams.any (fun r => r.name == team_name || r.slug == slug) then db
    else { db with teams := db.teams ++ [⟨nextTeamId db, team_name, slug⟩] }
  (db1, (db1.teams.find? (fun r => r.slug == slug)).map (·.id))

/-- The duplicate test of the fixture table's
`UNIQUE(league_id, home_team_id, away_team_id, dt_utc)` constraint. -/
def fixtureKeyMatch (league_id home_id away_id : Nat) (dt_iso : String)
    (f : FixtureRow) : Bool :=
  f.leagueId == league_id && f.homeTeamId == home_id && f.awayTeamId == away_id
    && f.dtUtc == dt_iso

/-- Helper `insert_fixture`: strict `INSERT INTO fixture(...)`; any
`sqlite3.IntegrityError` (duplicate unique key, or a foreign key violation) is
caught and turned into `None` with nothing inserted. -/
def insert_fixture (db : DB) (league_id : Nat) (venue_id : Option Nat)
    (home_id away_id : Nat) (dt_iso : String) (result : Option String) :
    DB × Option Nat :=
  let dup := db.fixtures.any (fixtureKeyMatch league_id home_id away_id dt_iso)
  let fkOk := db.leagues.any (fun r => r.id == league_id)
    && db.teams.any (fun r => r.id == home_id)
    && db.teams.any (fun r => r.id == away_id)
    && (match venue_id with
        | none => true
        | some v => db.venues.any (fun r => r.id == v))
  if dup || !fkOk then (db, none)
  else
    ({ db with fixtures := db.fixtures ++
        [⟨nextFixtureId db, league_id, venue_id, home_id, away_id, dt_iso, result⟩] },
      some (nextFixtureId db))

/-! ### Datetimes (`zoneinfo` / `datetime`) -/

/-- An aware `datetime`: the instant it denotes (minutes since the epoch, in
UTC) and its `utcoffset` in minutes.  Its wall-clock reading is
`instant + offsetMin`. -/
structure PyDateTime where
  instant : Int
  offsetMin : Int
deriving DecidableEq

/-- A `tzinfo`: the UTC offset it assigns to each instant (Europe/London gives
0 or 60 depending on DST at the instant). -/
structure PyTimeZone where
  offsetAt : Int → Int

/-- The `ZoneInfo("UTC")` timezone. -/
def UTCzone : PyTimeZone := ⟨fun _ => 0⟩

/-- Method `dt.astimezone(tz)`: same instant, offset re-derived from `tz`. -/
def astimezone (dt : PyDateTime) (tz : PyTimeZone) : PyDateTime :=
  ⟨dt.instant, tz.offsetAt dt.instant⟩

/-- The wall-clock reading of an aware datetime, in minutes. -/
def wallMinutes (dt : PyDateTime) : Int := dt.instant + dt.offsetMin

/-- Decimal digits of a natural number, most significant first; the fuel
argument (any bound above the value) makes the recursion structural. -/
def natDigitsAux : Nat → Nat → List Char
  | 0, _ => []
  | fuel + 1, n =>
    if n < 10 then [Nat.digitChar n]
    else natDigitsAux fuel (n / 10) ++ [Nat.digitChar (n % 10)]

/-- Decimal digits of a natural number, most significant first. -/
def natDigits (n : Nat) : List Char := natDigitsAux (n + 1) n

/-- Decimal rendering of an integer. -/
def intChars (i : Int) : List Char :=
  if i < 0 then '-' :: natDigits i.natAbs else natDigits i.natAbs

/-- Value of a digit string. -/
def digitsVal (l : List Char) : Nat :=
  l.foldl (fun a c => a * 10 + (c.toNat - 48)) 0

/-- Parse a non-empty all-digit string. -/
def parseNat? (l : List Char) : Option Nat :=
  if l.isEmpty then none
  else if l.all Char.isDigit then some (digitsVal l) else none

/-- Parse an optionally `-`-signed digit string. -/
def parseInt? (l : List Char) : Option Int :=
  match l with
  | [] => none
  | c :: rest =>
    if c == '-' then
      match parseNat? rest with
      | some n => some (-(Int.ofNat n))
      | none => none
    else
      match parseNat? (c :: rest) with
      | some n => some (Int.ofNat n)
      | none => none

/-- Split at the first `'+'`, which separates the wall-clock field block from
the offset suffix. -/
def splitAtPlus : List Char → Option (List Char × List Char)
  | [] => none
  | c :: rest =>
    if c == '+' then some ([], rest)
    else
      match splitAtPlus rest with
      | some (a, b) => some (c :: a, b)
      | none => none

/-- Method `dt.isoformat()`: the wall-clock reading followed by the UTC-offset suffix
(the `YYYY-MM-DDTHH:MM:SS` field block is abstracted to the wall-clock minute
count). -/
def isoformat (dt : PyDateTime) : String :=
  String.mk (intChars (wallMinutes dt) ++ '+' :: intChars dt.offsetMin)

/-- Function `datetime.fromisoformat`: recover the offset-aware datetime from its
rendered form. -/
def fromisoformat (s : String) : Option PyDateTime :=
  match splitAtPlus s.toList with
  | some (w, o) =>
    match parseInt? w, parseInt? o with
    | some wall, some off => some ⟨wall - off, off⟩
    | _, _ => none
  | none => none

/-- The text stored in `fixture.dt_utc`:
`fx["dt"].astimezone(UTC).isoformat()`. -/
def storedKickoff (dt : PyDateTime) : String := isoformat (astimezone dt UTCzone)

/-! ### Extracted content and the crawl orchestrator -/

/-- One fixture dict produced by `extract_fixtures_from_league`. -/
structure FixtureRec where
  dt : PyDateTime
  homeName : String
  awayName : String
  result : Option String

/-- One league of a group page, with the content its own page yields. -/
structure LeagueContent where
  name : String
  url : String
  fixtures : List FixtureRec
  venue : VenueDict

/-- One league group of the find-league page. -/
structure GroupContent where
  name : String
  url : String
  leagues : List LeagueContent

/-- Body of the innermost crawl loop: get-or-create both teams, convert the
kickoff to UTC, insert the fixture (its return value is ignored by the
caller).  The boolean is `false` when a helper raised; the returned `DB` is
the committed state either way. -/
def processFixture (db : DB) (league_id : Nat) (venue_id : Option Nat)
    (fx : FixtureRec) : DB × Bool :=
  match get_or_create_team db fx.homeName with
  | (db1, none) => (db1, false)
  | (db1, some home_tid) =>
    match get_or_create_team db1 fx.awayName with
    | (db2, none) => (db2, false)
    | (db2, some away_tid) =>
      ((insert_fixture db2 league_id venue_id home_tid away_tid
          (storedKickoff fx.dt) fx.result).1, true)

def processFixtures (db : DB) (league_id : Nat) (venue_id : Option Nat) :
    List FixtureRec → DB × Bool
  | [] => (db, true)
  | fx :: rest =>
    match processFixture db league_id venue_id fx with
    | (db1, false) => (db1, false)
    | (db1, true) => processFixtures db1 league_id venue_id rest

/-- Per-league body of the crawl loop. -/
def processLeague (db : DB) (lg_id : Nat) (lc : LeagueContent) : DB × Bool :=
  match get_or_create_league db lg_id lc.name lc.url with
  | (db1, none) => (db1, false)
  | (db1, some league_id) =>
    let v := get_or_create_venue db1 lc.venue
    processFixtures v.1 league_id v.2 lc.fixtures

def processLeagues (db : DB) (lg_id : Nat) : List LeagueContent → DB × Bool
  | [] => (db, true)
  | lc :: rest =>
    match processLeague db lg_id lc with
    | (db1, false) => (db1, false)
    | (db1, true) => processLeagues db1 lg_id rest

/-- Per-group body of the crawl loop. -/
def processGroup (db : DB) (g : GroupContent) : DB × Bool :=
  match get_or_create_league_group db g.name with
  | (db1, none) => (db1, false)
  | (db1, some lg_id) => processLeagues db1 lg_id g.leagues

def processGroups (db : DB) : List GroupContent → DB × Bool
  | [] => (db, true)
  | g :: rest =>
    match processGroup db g with
    | (db1, false) => (db1, false)
    | (db1, true) => processGroups db1 rest

/-- The slice `if limit: league_groups = league_groups[:limit]`; `if limit:` is falsy
for `0`, so `limit = some 0` keeps everything, like `None`. -/
def limitGroups (limit : Option Nat) (content : List GroupContent) : List GroupContent :=
  match limit with
  | none => content
  | some n => if n == 0 then content else content.take n

/-- Orchestrator `crawl_and_populate_db(limit)`: crawl the (already extracted) content
against the store. -/
def crawl_and_populate_db (limit : Option Nat) (content : List GroupContent)
    (db : DB) : DB × Bool :=
  processGroups db (limitGroups limit content)

/-! ### `safe_get` -/

/-- Observable effects of one `safe_get` call. -/
inductive NetEvent where
  | attempt (n : Nat)
  | warn (n : Nat)
  | sleepFor (seconds : Nat)
  | errorLog
deriving DecidableEq

/-- Loop `for attempt in range(1, 4)`: try the GET; on success return the response
(modelled by the succeeding attempt's number); on failure log a warning and
sleep `2 ** (attempt - 1)` seconds, then continue; after the loop log an error
and return `None`. -/
def safe_get_from (succeeds : Nat → Bool) : Nat → Nat → List NetEvent × Option Nat
  | 0, _ => ([NetEvent.errorLog], none)
  | fuel + 1, attempt =>
    if succeeds attempt then ([NetEvent.attempt attempt], some attempt)
    else
      let tail := safe_get_from succeeds fuel (attempt + 1)
      (NetEvent.attempt attempt :: NetEvent.warn attempt ::
        NetEvent.sleepFor (2 ^ (attempt - 1)) :: tail.1, tail.2)

/-- Fetcher `safe_get`, as the trace of events it emits and its return value, as a
function of which attempts would succeed. -/
def safe_get (succeeds : Nat → Bool) : List NetEvent × Option Nat :=
  safe_get_from succeeds 3 1

def isAttemptEvent : NetEvent → Bool
  | NetEvent.attempt _ => true
  | _ => false

def isWarnEvent : NetEvent → Bool
  | NetEvent.warn _ => true
  | _ => false

def isSleepEvent : NetEvent → Bool
  | NetEvent.sleepFor _ => true
  | _ => false

def isErrorEvent : NetEvent → Bool
  | NetEvent.errorLog => true
  | _ => false

/-- Predicate for "the backoff delays occur only between attempts": every sleep in the
trace is followed by a later attempt. -/
def sleepsOnlyBetweenAttempts (tr : List NetEvent) : Prop :=
  ∀ i, i < tr.length → isSleepEvent (tr.getD i NetEvent.errorLog) = true →
    ∃ j, j < tr.length ∧ i < j ∧ isAttemptEvent (tr.getD j NetEvent.errorLog) = true

instance (tr : List NetEvent) : Decidable (sleepsOnlyBetweenAttempts tr) := by
  unfold sleepsOnlyBetweenAttempts
  infer_instance

/-! ### ICS artifact generation -/

def DEFAULT_EVENT_LOCATION : String := "301 Huntington Rd, Huntington, York YO32 9WT"

/-- Query fragment `COALESCE(v.address, ?)` over `LEFT JOIN venue v ON f.venue_id = v.id`
with the default location bound as the parameter. -/
def queryAddress (db : DB) (f : FixtureRow) : String :=
  match f.venueId with
  | none => DEFAULT_EVENT_LOCATION
  | some vid =>
    match db.venues.find? (fun v => v.id == vid) with
    | some v => v.address
    | none => DEFAULT_EVENT_LOCATION

/-- Fallback `venue_addr or DEFAULT_EVENT_LOCATION` in `_build_ics` (an empty string is
falsy). -/
def eventLocation (db : DB) (f : FixtureRow) : String :=
  let addr := queryAddress db f
  if addr == "" then DEFAULT_EVENT_LOCATION else addr

/-- Ordering used by `ORDER BY f.dt_utc ASC`. -/
def fixtureDtLe (a b : FixtureRow) : Prop := a.dtUtc ≤ b.dtUtc

instance : DecidableRel fixtureDtLe := fun a b => by
  unfold fixtureDtLe; infer_instance

instance : IsTotal FixtureRow fixtureDtLe := ⟨fun a b => le_total a.dtUtc b.dtUtc⟩

instance : IsTrans FixtureRow fixtureDtLe := ⟨fun _ _ _ h h' => le_trans h h'⟩

/-- The unsorted row set of `build_team_ics`'s query: fixtures where the team
plays home or away, inner-joined to both team rows. -/
def teamFixtureRows (db : DB) (team_id : Nat) : List FixtureRow :=
  db.fixtures.filter (fun f =>
    (f.homeTeamId == team_id || f.awayTeamId == team_id)
    && db.teams.any (fun t => t.id == f.homeTeamId)
    && db.teams.any (fun t => t.id == f.awayTeamId))

/-- The row sequence of `build_team_ics`'s query, ordered by
`ORDER BY f.dt_utc ASC` (SQLite sorts stably; insertion sort is its stable
model). -/
def team_ics_query (db : DB) (team_id : Nat) : List FixtureRow :=
  List.insertionSort fixtureDtLe (teamFixtureRows db team_id)

/-- One generated calendar event. -/
structure IcsEvent where
  name : String
  eventBegin : Option PyDateTime
  location : String
  description : Option String
deriving DecidableEq

/-- The name of the team a fixture references on the given side. -/
def joinedTeamName (db : DB) (tid : Nat) : String :=
  ((db.teams.find? (fun t => t.id == tid)).map (·.name)).getD ""

/-- The event `build_team_ics`'s `event_namer` and `_build_ics` build from one
query row: title anchored on the team, begin converted from the stored UTC
text to the display timezone, location from the coalesced address. -/
def mkTeamEvent (tz : PyTimeZone) (db : DB) (team_id : Nat) (team_name : String)
    (f : FixtureRow) : IcsEvent :=
  { name := team_name ++ " vs " ++
      (if f.homeTeamId == team_id then joinedTeamName db f.awayTeamId
       else joinedTeamName db f.homeTeamId),
    eventBegin := (fromisoformat f.dtUtc).map (fun d => astimezone d tz),
    location := eventLocation db f,
    description := f.result.map (fun r => "Result: " ++ r) }

/-- Generator `build_team_ics`: resolve the team by slug (`None` when absent, no file
written), then emit one event per query row, in query order. -/
def build_team_ics (tz : PyTimeZone) (db : DB) (team_slug : String) :
    Option (List IcsEvent) :=
  (db.teams.find? (fun r => r.slug == team_slug)).map (fun t =>
    (team_ics_query db t.id).map (mkTeamEvent tz db t.id t.name))

/-! ### Store invariants -/

def lgSlugsUnique (db : DB) : Prop :=
  db.leagueGroups.Pairwise (fun a b => a.slug ≠ b.slug)

def leagueSlugsUnique (db : DB) : Prop :=
  db.leagues.Pairwise (fun a b => a.slug ≠ b.slug)

def teamSlugsUnique (db : DB) : Prop :=
  db.teams.Pairwise (fun a b => a.slug ≠ b.slug)

def venueUrlsUnique (db : DB) : Prop :=
  db.venues.Pairwise (fun a b => a.url ≠ b.url)

/-- The column tuple of the fixture table's UNIQUE constraint. -/
def fixtureKey (f : FixtureRow) : Nat × Nat × Nat × String :=
  (f.leagueId, f.homeTeamId, f.awayTeamId, f.dtUtc)

def fixtureKeysUnique (db : DB) : Prop :=
  db.fixtures.Pairwise (fun a b => fixtureKey a ≠ fixtureKey b)

def teamIdsUnique (db : DB) : Prop :=
  db.teams.Pairwise (fun a b => a.id ≠ b.id)

/-- The uniqueness constraints `init_db` declares, as a store invariant. -/
def DBInv (db : DB) : Prop :=
  lgSlugsUnique db ∧ leagueSlugsUnique db ∧ teamSlugsUnique db ∧
    venueUrlsUnique db ∧ fixtureKeysUnique db ∧ teamIdsUnique db

/-- Slug consistency: every row's slug is the slug of its name (always true of
rows these helpers insert). -/
def lgConsistent (db : DB) : Prop :=
  ∀ r ∈ db.leagueGroups, r.slug = slugify r.name

def teamConsistent (db : DB) : Prop :=
  ∀ r ∈ db.teams, r.slug = slugify r.name

def leagueConsistent (db : DB) : Prop :=
  ∀ r ∈ db.leagues, r.slug = slugify r.name

/-- Append-only growth of one table. -/
def tableExt {α : Type} (l1 l2 : List α) : Prop := ∃ t, l2 = l1 ++ t

/-- The second store extends the first: every table has only grown at the end. -/
def dbExt (d1 d2 : DB) : Prop :=
  tableExt d1.leagueGroups d2.leagueGroups ∧ tableExt d1.venues d2.venues ∧
    tableExt d1.leagues d2.leagues ∧ tableExt d1.teams d2.teams ∧
    tableExt d1.fixtures d2.fixtures

/-! ### Concrete inputs used by witnesses and counterexamples -/

def exGroupC1 : GroupContent :=
  ⟨"Accrington - Weds", "/g1",
    [⟨"Division A", "/league/1",
      [⟨⟨100, 60⟩, "Team X", "Team Y", none⟩,
       ⟨⟨200, 60⟩, "Team X", "Team Z", some "3-1"⟩],
      ⟨"V", some "/info/venues/5", "12 Park Rd"⟩⟩]⟩

def exDbC2 : DB :=
  ⟨[⟨1, "G", "g"⟩], [], [⟨1, 1, "Division A", "/l1", "division_a"⟩],
    [⟨1, "Team X", "team_x"⟩, ⟨2, "Team Y", "team_y"⟩],
    [⟨1, 1, none, 1, 2, "100+0", none⟩]⟩

def exGroupC3 : GroupContent :=
  ⟨"G", "/g", [⟨"L", "/l", [⟨⟨100, 0⟩, "A B", "A-B", none⟩],
    ⟨"Unknown", none, "addr"⟩⟩]⟩

def exGroupC3w : GroupContent :=
  ⟨"G", "/g", [⟨"L", "/l", [⟨⟨100, 0⟩, "Team X", "Team Y", none⟩],
    ⟨"Unknown", none, "addr"⟩⟩]⟩

def exGroupsC4 : List GroupContent :=
  [⟨"G", "/g", [⟨"A", "u", [], ⟨"Unknown", none, "a"⟩⟩]⟩,
   ⟨"G2", "/g2", [⟨"B", "u", [], ⟨"Unknown", none, "a"⟩⟩]⟩]

def allFailC5 : Nat → Bool := fun _ => false

def failTwiceC5 : Nat → Bool := fun n => n == 3

def exDbC6 : DB := ⟨[⟨1, "G", "g"⟩], [], [⟨1, 1, "A", "u", "a"⟩], [], []⟩

def exDbC8 : DB :=
  ⟨[], [], [], [⟨1, "Team X", "team_x"⟩, ⟨2, "Team Y", "team_y"⟩],
    [⟨1, 1, none, 1, 2, "2025-05-19T20:45", none⟩,
     ⟨2, 1, none, 2, 1, "2025-05-12T20:45", none⟩,
     ⟨3, 1, none, 1, 2, "2025-05-26T20:45", none⟩]⟩

def exDbC10 : DB := ⟨[⟨1, "G", "g"⟩], [], [], [], []⟩

def exLeagueC10 : LeagueContent :=
  ⟨"L", "/l", [⟨⟨100, 0⟩, "Team X", "Team Y", none⟩],
    ⟨"Unknown", none, DEFAULT_EVENT_LOCATION⟩⟩

/-! ## Generic helper lemmas -/

theorem uint32_le_iff (a b : UInt32) : a ≤ b ↔ a.toNat ≤ b.toNat :=
  UInt32.le_def.trans BitVec.le_def

theorem char_isUpper_iff (c : Char) : c.isUpper = true ↔ 65 ≤ c.toNat ∧ c.toNat ≤ 90 := by
  simp only [Char.isUpper, Bool.and_eq_true, decide_eq_true_eq, ge_iff_le]
  constructor
  · rintro ⟨h1, h2⟩
    exact ⟨(uint32_le_iff _ _).mp h1, (uint32_le_iff _ _).mp h2⟩
  · rintro ⟨h1, h2⟩
    exact ⟨(uint32_le_iff _ _).mpr h1, (uint32_le_iff _ _).mpr h2⟩

theorem char_ofNat_toNat {n : Nat} (h : n < 55296) : (Char.ofNat n).toNat = n := by
  have hvalid : n.isValidChar := Or.inl h
  simp only [Char.ofNat, hvalid, dif_pos, Char.ofNatAux, Char.toNat]
  rfl

theorem charToLower_not_upper (c : Char) : (Char.toLower c).isUpper = false := by
  simp only [Char.toLower]
  split
  · rename_i h
    rw [Bool.eq_false_iff]
    intro hup
    have := (char_isUpper_iff _).mp hup
    rw [char_ofNat_toNat (by omega)] at this
    omega
  · rename_i h
    rw [Bool.eq_false_iff]
    intro hup
    exact h ((char_isUpper_iff _).mp hup)

theorem find_unique {α : Type} {p : α → Bool} {l : List α} {r : α}
    (hmem : r ∈ l) (hp : p r = true)
    (huniq : ∀ a ∈ l, p a = true → a = r) :
    l.find? p = some r := by
  induction l with
  | nil => cases hmem
  | cons x xs ih =>
    by_cases hx : p x = true
    · have hxr : x = r := huniq x (List.mem_cons_self x xs) hx
      subst hxr
      simp [List.find?_cons, hx]
    · have hx' : p x = false := Bool.eq_false_iff.mpr hx
      have hr : r ∈ xs := by
        rcases List.mem_cons.mp hmem with rfl | h
        · exact absurd hp hx
        · exact h
      rw [List.find?_cons, hx']
      exact ih hr (fun a ha hpa => huniq a (List.mem_cons_of_mem x ha) hpa)

theorem key_unique {α β : Type} (key : α → β) {l : List α}
    (hp : l.Pairwise (fun a b => key a ≠ key b)) {r a : α} (hmem : r ∈ l) (ha : a ∈ l)
    (hk : key a = key r) : a = r := by
  by_contra hne
  exact (hp.forall (fun _ _ h => h.symm) ha hmem hne) hk

theorem find?_of_key_unique {α β : Type} (key : α → β) {p : α → Bool} {l : List α} {r : α}
    (hp : l.Pairwise (fun a b => key a ≠ key b))
    (hmem : r ∈ l) (hpr : p r = true)
    (hkey : ∀ a ∈ l, p a = true → key a = key r) :
    l.find? p = some r :=
  find_unique hmem hpr (fun a ha hpa => key_unique key hp hmem ha (hkey a ha hpa))

theorem lt_nextIdOf {ids : List Nat} {i : Nat} (h : i ∈ ids) : i < nextIdOf ids := by
  unfold nextIdOf
  have hle : i ≤ ids.foldr max 0 := by
    induction ids with
    | nil => cases h
    | cons x xs ih =>
      rcases List.mem_cons.mp h with rfl | hx
      · exact Nat.le_max_left _ _
      · exact Nat.le_trans (ih hx) (Nat.le_max_right _ _)
  omega

theorem tableExt_refl {α : Type} (l : List α) : tableExt l l := ⟨[], by simp⟩

theorem tableExt_trans {α : Type} {l1 l2 l3 : List α}
    (h1 : tableExt l1 l2) (h2 : tableExt l2 l3) : tableExt l1 l3 := by
  obtain ⟨t1, rfl⟩ := h1
  obtain ⟨t2, rfl⟩ := h2
  exact ⟨t1 ++ t2, by simp⟩

theorem tableExt_append {α : Type} (l t : List α) : tableExt l (l ++ t) := ⟨t, rfl⟩

theorem mem_of_tableExt {α : Type} {l1 l2 : List α} {a : α}
    (h : tableExt l1 l2) (ha : a ∈ l1) : a ∈ l2 := by
  obtain ⟨t, rfl⟩ := h
  exact List.mem_append_left t ha

theorem dbExt_refl (db : DB) : dbExt db db :=
  ⟨tableExt_refl _, tableExt_refl _, tableExt_refl _, tableExt_refl _, tableExt_refl _⟩

theorem dbExt_trans {d1 d2 d3 : DB} (h1 : dbExt d1 d2) (h2 : dbExt d2 d3) : dbExt d1 d3 :=
  ⟨tableExt_trans h1.1 h2.1, tableExt_trans h1.2.1 h2.2.1, tableExt_trans h1.2.2.1 h2.2.2.1,
    tableExt_trans h1.2.2.2.1 h2.2.2.2.1, tableExt_trans h1.2.2.2.2 h2.2.2.2.2⟩

/-! ## Lemmas about the repository helpers -/

theorem get_or_create_team_ext (db : DB) (n : String) :
    dbExt db (get_or_create_team db n).1 := by
  dsimp only [get_or_create_team]
  split
  · exact dbExt_refl db
  · exact ⟨tableExt_refl _, tableExt_refl _, tableExt_refl _, tableExt_append _ _,
      tableExt_refl _⟩

theorem get_or_create_team_run {db db' : DB} {n : String} {i : Nat}
    (h : get_or_create_team db n = (db', some i)) :
    dbExt db db' ∧ ∃ r ∈ db'.teams, r.slug = slugify n ∧ r.id = i := by
  have hext : dbExt db db' := by
    have := get_or_create_team_ext db n
    rw [h] at this
    exact this
  refine ⟨hext, ?_⟩
  have h2 := congrArg Prod.snd h
  simp only at h2
  unfold get_or_create_team at h2
  simp only at h2
  obtain ⟨r, hfind, hid⟩ := Option.map_eq_some'.mp h2
  have hdb' : (get_or_create_team db n).1 = db' := by rw [h]
  refine ⟨r, ?_, ?_, hid⟩
  · have hmem := List.mem_of_find?_eq_some hfind
    unfold get_or_create_team at hdb'
    simp only at hdb'
    rw [← hdb']
    exact hmem
  · have := List.find?_some hfind
    exact eq_of_beq this

theorem get_or_create_team_rerun {db : DB} {n : String} {r : TeamRow}
    (huniq : teamSlugsUnique db) (hmem : r ∈ db.teams) (hslug : r.slug = slugify n) :
    get_or_create_team db n = (db, some r.id) := by
  have hconf : (db.teams.any fun t => t.name == n || t.slug == slugify n) = true := by
    rw [List.any_eq_true]
    exact ⟨r, hmem, by simp [hslug]⟩
  have hfind : db.teams.find? (fun t => t.slug == slugify n) = some r :=
    find?_of_key_unique TeamRow.slug huniq hmem (by simp [hslug])
      (fun a _ hpa => by rw [eq_of_beq hpa, hslug])
  dsimp only [get_or_create_team]
  rw [if_pos hconf, hfind]
  rfl

theorem get_or_create_team_inv {db : DB} {n : String} (hinv : DBInv db) :
    DBInv (get_or_create_team db n).1 := by
  obtain ⟨h1, h2, h3, h4, h5, h6⟩ := hinv
  dsimp only [get_or_create_team]
  split
  · exact ⟨h1, h2, h3, h4, h5, h6⟩
  · rename_i hnoconf
    refine ⟨h1, h2, ?_, h4, h5, ?_⟩
    · unfold teamSlugsUnique at h3 ⊢
      rw [List.pairwise_append]
      refine ⟨h3, List.pairwise_singleton _ _, ?_⟩
      intro a ha b hb
      simp only [List.mem_singleton] at hb
      subst hb
      intro heq
      apply hnoconf
      rw [List.any_eq_true]
      exact ⟨a, ha, by simp [heq]⟩
    · unfold teamIdsUnique at h6 ⊢
      rw [List.pairwise_append]
      refine ⟨h6, List.pairwise_singleton _ _, ?_⟩
      intro a ha b hb
      simp only [List.mem_singleton] at hb
      subst hb
      have : a.id < nextTeamId db := lt_nextIdOf (List.mem_map_of_mem (·.id) ha)
      show a.id ≠ nextTeamId db
      omega

theorem get_or_create_league_group_ext (db : DB) (n : String) :
    dbExt db (get_or_create_league_group db n).1 := by
  dsimp only [get_or_create_league_group]
  split
  · exact dbExt_refl db
  · exact ⟨tableExt_append _ _, tableExt_refl _, tableExt_refl _, tableExt_refl _,
      tableExt_refl _⟩

theorem get_or_create_league_group_run {db db' : DB} {n : String} {i : Nat}
    (h : get_or_create_league_group db n = (db', some i)) :
    dbExt db db' ∧ ∃ r ∈ db'.leagueGroups, r.slug = slugify n ∧ r.id = i := by
  have hext : dbExt db db' := by
    have := get_or_create_league_group_ext db n
    rw [h] at this
    exact this
  refine ⟨hext, ?_⟩
  have h2 := congrArg Prod.snd h
  simp only at h2
  unfold get_or_create_league_group at h2
  simp only at h2
  obtain ⟨r, hfind, hid⟩ := Option.map_eq_some'.mp h2
  have hdb' : (get_or_create_league_group db n).1 = db' := by rw [h]
  refine ⟨r, ?_, ?_, hid⟩
  · have hmem := List.mem_of_find?_eq_some hfind
    unfold get_or_create_league_group at hdb'
    simp only at hdb'
    rw [← hdb']
    exact hmem
  · have := List.find?_some hfind
    exact eq_of_beq this

theorem get_or_create_league_group_rerun {db : DB} {n : String} {r : LeagueGroupRow}
    (huniq : lgSlugsUnique db) (hmem : r ∈ db.leagueGroups) (hslug : r.slug = slugify n) :
    get_or_create_league_group db n = (db, some r.id) := by
  have hconf : (db.leagueGroups.any fun t => t.name == n || t.slug == slugify n) = true := by
    rw [List.any_eq_true]
    exact ⟨r, hmem, by simp [hslug]⟩
  have hfind : db.leagueGroups.find? (fun t => t.slug == slugify n) = some r :=
    find?_of_key_unique LeagueGroupRow.slug huniq hmem (by simp [hslug])
      (fun a _ hpa => by rw [eq_of_beq hpa, hslug])
  dsimp only [get_or_create_league_group]
  rw [if_pos hconf, hfind]
  rfl

theorem get_or_create_league_group_inv {db : DB} {n : String} (hinv : DBInv db) :
    DBInv (get_or_create_league_group db n).1 := by
  obtain ⟨h1, h2, h3, h4, h5, h6⟩ := hinv
  dsimp only [get_or_create_league_group]
  split
  · exact ⟨h1, h2, h3, h4, h5, h6⟩
  · rename_i hnoconf
    refine ⟨?_, h2, h3, h4, h5, h6⟩
    unfold lgSlugsUnique at h1 ⊢
    rw [List.pairwise_append]
    refine ⟨h1, List.pairwise_singleton _ _, ?_⟩
    intro a ha b hb
    simp only [List.mem_singleton] at hb
    subst hb
    intro heq
    apply hnoconf
    rw [List.any_eq_true]
    exact ⟨a, ha, by simp [heq]⟩

theorem get_or_create_league_ext (db : DB) (gid : Nat) (n u : String) :
    dbExt db (get_or_create_league db gid n u).1 := by
  dsimp only [get_or_create_league]
  split
  · exact dbExt_refl db
  · split
    · exact ⟨tableExt_refl _, tableExt_refl _, tableExt_append _ _, tableExt_refl _,
        tableExt_refl _⟩
    · exact dbExt_refl db

theorem get_or_create_league_run {db db' : DB} {gid : Nat} {n u : String} {i : Nat}
    (h : get_or_create_league db gid n u = (db', some i)) :
    dbExt db db' ∧ ∃ r ∈ db'.leagues, r.slug = slugify n ∧ r.id = i := by
  have hext : dbExt db db' := by
    have := get_or_create_league_ext db gid n u
    rw [h] at this
    exact this
  refine ⟨hext, ?_⟩
  unfold get_or_create_league at h
  dsimp only at h
  split at h
  · rw [Prod.mk.injEq] at h
    obtain ⟨rfl, h2⟩ := h
    obtain ⟨r, hfind, hid⟩ := Option.map_eq_some'.mp h2
    have hbeq := List.find?_some hfind
    exact ⟨r, List.mem_of_find?_eq_some hfind, eq_of_beq hbeq, hid⟩
  · split at h
    · rw [Prod.mk.injEq] at h
      obtain ⟨hdb, h2⟩ := h
      obtain ⟨r, hfind, hid⟩ := Option.map_eq_some'.mp h2
      have hbeq := List.find?_some hfind
      refine ⟨r, ?_, eq_of_beq hbeq, hid⟩
      rw [← hdb]
      exact List.mem_of_find?_eq_some hfind
    · rw [Prod.mk.injEq] at h
      exact absurd h.2 (by simp)

theorem get_or_create_league_rerun {db : DB} {n : String} {r : LeagueRow}
    (huniq : leagueSlugsUnique db) (hmem : r ∈ db.leagues) (hslug : r.slug = slugify n)
    (gid : Nat) (u : String) :
    get_or_create_league db gid n u = (db, some r.id) := by
  have hconf : (db.leagues.any fun t => t.url == u || t.slug == slugify n) = true := by
    rw [List.any_eq_true]
    exact ⟨r, hmem, by simp [hslug]⟩
  have hfind : db.leagues.find? (fun t => t.slug == slugify n) = some r :=
    find?_of_key_unique LeagueRow.slug huniq hmem (by simp [hslug])
      (fun a _ hpa => by rw [eq_of_beq hpa, hslug])
  dsimp only [get_or_create_league]
  rw [if_pos hconf, hfind]
  rfl

theorem get_or_create_league_inv {db : DB} (gid : Nat) (n u : String) (hinv : DBInv db) :
    DBInv (get_or_create_league db gid n u).1 := by
  obtain ⟨h1, h2, h3, h4, h5, h6⟩ := hinv
  dsimp only [get_or_create_league]
  split
  · exact ⟨h1, h2, h3, h4, h5, h6⟩
  · split
    · rename_i hnoconf _
      refine ⟨h1, ?_, h3, h4, h5, h6⟩
      unfold leagueSlugsUnique at h2 ⊢
      rw [List.pairwise_append]
      refine ⟨h2, List.pairwise_singleton _ _, ?_⟩
      intro a ha b hb
      simp only [List.mem_singleton] at hb
      subst hb
      intro heq
      apply hnoconf
      rw [List.any_eq_true]
      exact ⟨a, ha, by simp [heq]⟩
    · exact ⟨h1, h2, h3, h4, h5, h6⟩

theorem get_or_create_venue_ext (db : DB) (vd : VenueDict) :
    dbExt db (get_or_create_venue db vd).1 := by
  dsimp only [get_or_create_venue]
  split
  · exact dbExt_refl db
  · split
    · exact dbExt_refl db
    · exact ⟨tableExt_refl _, tableExt_append _ _, tableExt_refl _, tableExt_refl _,
        tableExt_refl _⟩

theorem get_or_create_venue_none (db : DB) {vd : VenueDict} (h : vd.url = none) :
    get_or_create_venue db vd = (db, none) := by
  unfold get_or_create_venue
  rw [h]

theorem get_or_create_venue_run_some {db db' : DB} {vd : VenueDict} {u : String}
    {res : Option Nat} (hu : vd.url = some u) (h : get_or_create_venue db vd = (db', res)) :
    dbExt db db' ∧ ∃ i, res = some i ∧ ∃ r ∈ db'.venues, r.url = u ∧ r.id = i := by
  have hext : dbExt db db' := by
    have := get_or_create_venue_ext db vd
    rw [h] at this
    exact this
  refine ⟨hext, ?_⟩
  unfold get_or_create_venue at h
  rw [hu] at h
  dsimp only at h
  split at h
  · rename_i hconf
    have hfind : ∃ r, db.venues.find? (fun t => t.url == u) = some r := by
      rw [← Option.isSome_iff_exists, List.find?_isSome]
      obtain ⟨r, hr, hpr⟩ := List.any_eq_true.mp hconf
      exact ⟨r, hr, hpr⟩
    obtain ⟨r, hfind⟩ := hfind
    rw [Prod.mk.injEq] at h
    obtain ⟨rfl, h2⟩ := h
    rw [hfind] at h2
    have hbeq := List.find?_some hfind
    exact ⟨r.id, h2.symm, r, List.mem_of_find?_eq_some hfind, eq_of_beq hbeq, rfl⟩
  · rename_i hnoconf
    have hfind : ∃ r, List.find? (fun t => t.url == u)
        (db.venues ++ [(⟨nextVenueId db, u, vd.name, vd.address⟩ : VenueRow)]) = some r := by
      rw [← Option.isSome_iff_exists, List.find?_isSome]
      have hmemnew : (⟨nextVenueId db, u, vd.name, vd.address⟩ : VenueRow) ∈
          db.venues ++ [⟨nextVenueId db, u, vd.name, vd.address⟩] :=
        List.mem_append_right _ (List.mem_singleton_self _)
      have hpnew : ((⟨nextVenueId db, u, vd.name, vd.address⟩ : VenueRow).url == u) = true := by
        simp
      exact ⟨_, hmemnew, hpnew⟩
    obtain ⟨r, hfind⟩ := hfind
    rw [Prod.mk.injEq] at h
    obtain ⟨hdb, h2⟩ := h
    rw [hfind] at h2
    have hbeq := List.find?_some hfind
    refine ⟨r.id, h2.symm, r, ?_, eq_of_beq hbeq, rfl⟩
    rw [← hdb]
    exact List.mem_of_find?_eq_some hfind

theorem get_or_create_venue_rerun (db : DB) {vd : VenueDict} {u : String} {r : VenueRow}
    (hu : vd.url = some u) (huniq : venueUrlsUnique db) (hmem : r ∈ db.venues)
    (hurl : r.url = u) :
    get_or_create_venue db vd = (db, some r.id) := by
  have hconf : (db.venues.any fun t => t.url == u) = true := by
    rw [List.any_eq_true]
    exact ⟨r, hmem, by simp [hurl]⟩
  have hfind : db.venues.find? (fun t => t.url == u) = some r :=
    find?_of_key_unique VenueRow.url huniq hmem (by simp [hurl])
      (fun a _ hpa => by rw [eq_of_beq hpa, hurl])
  unfold get_or_create_venue
  rw [hu]
  dsimp only
  rw [if_pos hconf, hfind]
  rfl

theorem get_or_create_venue_inv {db : DB} (vd : VenueDict) (hinv : DBInv db) :
    DBInv (get_or_create_venue db vd).1 := by
  obtain ⟨h1, h2, h3, h4, h5, h6⟩ := hinv
  dsimp only [get_or_create_venue]
  split
  · exact ⟨h1, h2, h3, h4, h5, h6⟩
  · split
    · exact ⟨h1, h2, h3, h4, h5, h6⟩
    · rename_i hnoconf
      refine ⟨h1, h2, h3, ?_, h5, h6⟩
      unfold venueUrlsUnique at h4 ⊢
      rw [List.pairwise_append]
      refine ⟨h4, List.pairwise_singleton _ _, ?_⟩
      intro a ha b hb
      simp only [List.mem_singleton] at hb
      subst hb
      intro heq
      apply hnoconf
      rw [List.any_eq_true]
      exact ⟨a, ha, by simp [heq]⟩

theorem fixtureKeyMatch_iff {lid hId aId : Nat} {dt : String} {f : FixtureRow} :
    fixtureKeyMatch lid hId aId dt f = true ↔ fixtureKey f = (lid, hId, aId, dt) := by
  unfold fixtureKeyMatch fixtureKey
  simp only [Bool.and_eq_true, beq_iff_eq, Prod.mk.injEq]
  tauto

theorem insert_fixture_ext (db : DB) (lid : Nat) (vid : Option Nat) (hId aId : Nat)
    (dt : String) (res : Option String) :
    dbExt db (insert_fixture db lid vid hId aId dt res).1 := by
  dsimp only [insert_fixture]
  split
  · exact dbExt_refl db
  · exact ⟨tableExt_refl _, tableExt_refl _, tableExt_refl _, tableExt_refl _,
      tableExt_append _ _⟩

theorem insert_fixture_dup {db : DB} {lid : Nat} (vid : Option Nat) {hId aId : Nat}
    {dt : String} (res : Option String)
    (hdup : ∃ f ∈ db.fixtures, fixtureKey f = (lid, hId, aId, dt)) :
    insert_fixture db lid vid hId aId dt res = (db, none) := by
  have hany : db.fixtures.any (fixtureKeyMatch lid hId aId dt) = true := by
    rw [List.any_eq_true]
    obtain ⟨f, hf, hk⟩ := hdup
    exact ⟨f, hf, fixtureKeyMatch_iff.mpr hk⟩
  dsimp only [insert_fixture]
  rw [hany]
  simp

theorem insert_fixture_run {db : DB} {lid : Nat} {vid : Option Nat} {hId aId : Nat}
    (dt : String) (res : Option String)
    (hl : ∃ r ∈ db.leagues, r.id = lid) (hh : ∃ r ∈ db.teams, r.id = hId)
    (ha : ∃ r ∈ db.teams, r.id = aId)
    (hv : ∀ v, vid = some v → ∃ r ∈ db.venues, r.id = v) :
    ∃ f ∈ (insert_fixture db lid vid hId aId dt res).1.fixtures,
      fixtureKey f = (lid, hId, aId, dt) := by
  have hl' : (db.leagues.any fun r => r.id == lid) = true := by
    rw [List.any_eq_true]
    obtain ⟨r, hr, hid⟩ := hl
    exact ⟨r, hr, by simp [hid]⟩
  have hh' : (db.teams.any fun r => r.id == hId) = true := by
    rw [List.any_eq_true]
    obtain ⟨r, hr, hid⟩ := hh
    exact ⟨r, hr, by simp [hid]⟩
  have ha' : (db.teams.any fun r => r.id == aId) = true := by
    rw [List.any_eq_true]
    obtain ⟨r, hr, hid⟩ := ha
    exact ⟨r, hr, by simp [hid]⟩
  have hv2 : ∀ v, vid = some v → (db.venues.any fun r => r.id == v) = true := by
    intro v hvid
    rw [List.any_eq_true]
    obtain ⟨r, hr, hid⟩ := hv v hvid
    exact ⟨r, hr, by simp [hid]⟩
  clear hv hl hh ha
  cases hvid : vid with
  | none =>
    dsimp only [insert_fixture]
    rw [hl', hh', ha']
    split
    · rename_i hcond
      simp only [Bool.and_true, Bool.and_self, Bool.not_true, Bool.or_false] at hcond
      obtain ⟨f, hf, hk⟩ := List.any_eq_true.mp hcond
      exact ⟨f, hf, fixtureKeyMatch_iff.mp hk⟩
    · refine ⟨⟨nextFixtureId db, lid, none, hId, aId, dt, res⟩, ?_, rfl⟩
      exact List.mem_append_right _ (List.mem_singleton_self _)
  | some v =>
    have hvv := hv2 v hvid
    dsimp only [insert_fixture]
    rw [hl', hh', ha', hvv]
    split
    · rename_i hcond
      simp only [Bool.and_true, Bool.and_self, Bool.not_true, Bool.or_false] at hcond
      obtain ⟨f, hf, hk⟩ := List.any_eq_true.mp hcond
      exact ⟨f, hf, fixtureKeyMatch_iff.mp hk⟩
    · refine ⟨⟨nextFixtureId db, lid, some v, hId, aId, dt, res⟩, ?_, rfl⟩
      exact List.mem_append_right _ (List.mem_singleton_self _)

theorem insert_fixture_inv {db : DB} {lid : Nat} {vid : Option Nat} {hId aId : Nat}
    {dt : String} {res : Option String} (hinv : DBInv db) :
    DBInv (insert_fixture db lid vid hId aId dt res).1 := by
  obtain ⟨h1, h2, h3, h4, h5, h6⟩ := hinv
  dsimp only [insert_fixture]
  split
  · exact ⟨h1, h2, h3, h4, h5, h6⟩
  · rename_i hcond
    have hdup : db.fixtures.any (fixtureKeyMatch lid hId aId dt) = false := by
      cases hd : db.fixtures.any (fixtureKeyMatch lid hId aId dt) with
      | false => rfl
      | true => exact absurd (by rw [hd]; rfl) hcond
    refine ⟨h1, h2, h3, h4, ?_, h6⟩
    unfold fixtureKeysUnique at h5 ⊢
    rw [List.pairwise_append]
    refine ⟨h5, List.pairwise_singleton _ _, ?_⟩
    intro a ha b hb
    simp only [List.mem_singleton] at hb
    subst hb
    intro heq
    rw [Bool.eq_false_iff] at hdup
    apply hdup
    rw [List.any_eq_true]
    exact ⟨a, ha, fixtureKeyMatch_iff.mpr heq⟩

/-! ## Lemmas about the crawl loops -/

theorem processFixture_ext_inv (db : DB) (lid : Nat) (vid : Option Nat) (fx : FixtureRec) :
    dbExt db (processFixture db lid vid fx).1 ∧
    (DBInv db → DBInv (processFixture db lid vid fx).1) := by
  rcases hc1 : get_or_create_team db fx.homeName with ⟨db1, o1⟩
  have hext1 : dbExt db db1 := by
    have := get_or_create_team_ext db fx.homeName
    rw [hc1] at this
    exact this
  have hinv1 : DBInv db → DBInv db1 := fun hi => by
    have := get_or_create_team_inv (n := fx.homeName) hi
    rw [hc1] at this
    exact this
  cases o1 with
  | none =>
    unfold processFixture
    rw [hc1]
    exact ⟨hext1, hinv1⟩
  | some htid =>
    rcases hc2 : get_or_create_team db1 fx.awayName with ⟨db2, o2⟩
    have hext2 : dbExt db1 db2 := by
      have := get_or_create_team_ext db1 fx.awayName
      rw [hc2] at this
      exact this
    have hinv2 : DBInv db1 → DBInv db2 := fun hi => by
      have := get_or_create_team_inv (n := fx.awayName) hi
      rw [hc2] at this
      exact this
    cases o2 with
    | none =>
      unfold processFixture
      rw [hc1]
      dsimp only
      rw [hc2]
      exact ⟨dbExt_trans hext1 hext2, fun hi => hinv2 (hinv1 hi)⟩
    | some atid =>
      unfold processFixture
      rw [hc1]
      dsimp only
      rw [hc2]
      have hext3 := insert_fixture_ext db2 lid vid htid atid (storedKickoff fx.dt) fx.result
      have hinv3 : DBInv db2 →
          DBInv (insert_fixture db2 lid vid htid atid (storedKickoff fx.dt) fx.result).1 :=
        fun hi => insert_fixture_inv hi
      exact ⟨dbExt_trans (dbExt_trans hext1 hext2) hext3,
        fun hi => hinv3 (hinv2 (hinv1 hi))⟩

theorem processFixtures_ext_inv :
    ∀ (fxs : List FixtureRec) (db : DB) (lid : Nat) (vid : Option Nat),
    dbExt db (processFixtures db lid vid fxs).1 ∧
    (DBInv db → DBInv (processFixtures db lid vid fxs).1)
  | [], db, lid, vid => by
    unfold processFixtures
    exact ⟨dbExt_refl db, id⟩
  | fx :: rest, db, lid, vid => by
    rcases hc : processFixture db lid vid fx with ⟨db1, b⟩
    have hx : dbExt db db1 ∧ (DBInv db → DBInv db1) := by
      have := processFixture_ext_inv db lid vid fx
      rw [hc] at this
      exact this
    cases b with
    | false =>
      unfold processFixtures
      rw [hc]
      exact hx
    | true =>
      have hrest := processFixtures_ext_inv rest db1 lid vid
      unfold processFixtures
      rw [hc]
      exact ⟨dbExt_trans hx.1 hrest.1, fun hi => hrest.2 (hx.2 hi)⟩

theorem processLeague_ext_inv (db : DB) (gid : Nat) (lc : LeagueContent) :
    dbExt db (processLeague db gid lc).1 ∧
    (DBInv db → DBInv (processLeague db gid lc).1) := by
  rcases hc1 : get_or_create_league db gid lc.name lc.url with ⟨db1, o1⟩
  have hx1 : dbExt db db1 ∧ (DBInv db → DBInv db1) := by
    constructor
    · have := get_or_create_league_ext db gid lc.name lc.url
      rw [hc1] at this
      exact this
    · intro hi
      have := get_or_create_league_inv gid lc.name lc.url hi
      rw [hc1] at this
      exact this
  cases o1 with
  | none =>
    unfold processLeague
    rw [hc1]
    exact hx1
  | some lid =>
    rcases hc2 : get_or_create_venue db1 lc.venue with ⟨db2, vid⟩
    have hx2 : dbExt db1 db2 ∧ (DBInv db1 → DBInv db2) := by
      constructor
      · have := get_or_create_venue_ext db1 lc.venue
        rw [hc2] at this
        exact this
      · intro hi
        have := get_or_create_venue_inv lc.venue hi
        rw [hc2] at this
        exact this
    have hx3 := processFixtures_ext_inv lc.fixtures db2 lid vid
    unfold processLeague
    rw [hc1]
    dsimp only
    rw [hc2]
    exact ⟨dbExt_trans (dbExt_trans hx1.1 hx2.1) hx3.1,
      fun hi => hx3.2 (hx2.2 (hx1.2 hi))⟩

theorem processLeagues_ext_inv :
    ∀ (lcs : List LeagueContent) (db : DB) (gid : Nat),
    dbExt db (processLeagues db gid lcs).1 ∧
    (DBInv db → DBInv (processLeagues db gid lcs).1)
  | [], db, gid => by
    unfold processLeagues
    exact ⟨dbExt_refl db, id⟩
  | lc :: rest, db, gid => by
    rcases hc : processLeague db gid lc with ⟨db1, b⟩
    have hx : dbExt db db1 ∧ (DBInv db → DBInv db1) := by
      have := processLeague_ext_inv db gid lc
      rw [hc] at this
      exact this
    cases b with
    | false =>
      unfold processLeagues
      rw [hc]
      exact hx
    | true =>
      have hrest := processLeagues_ext_inv rest db1 gid
      unfold processLeagues
      rw [hc]
      exact ⟨dbExt_trans hx.1 hrest.1, fun hi => hrest.2 (hx.2 hi)⟩

theorem processGroup_ext_inv (db : DB) (g : GroupContent) :
    dbExt db (processGroup db g).1 ∧ (DBInv db → DBInv (processGroup db g).1) := by
  rcases hc1 : get_or_create_league_group db g.name with ⟨db1, o1⟩
  have hx1 : dbExt db db1 ∧ (DBInv db → DBInv db1) := by
    constructor
    · have := get_or_create_league_group_ext db g.name
      rw [hc1] at this
      exact this
    · intro hi
      have := get_or_create_league_group_inv (n := g.name) hi
      rw [hc1] at this
      exact this
  cases o1 with
  | none =>
    unfold processGroup
    rw [hc1]
    exact hx1
  | some gid =>
    have hx2 := processLeagues_ext_inv g.leagues db1 gid
    unfold processGroup
    rw [hc1]
    exact ⟨dbExt_trans hx1.1 hx2.1, fun hi => hx2.2 (hx1.2 hi)⟩

theorem processGroups_ext_inv :
    ∀ (gs : List GroupContent) (db : DB),
    dbExt db (processGroups db gs).1 ∧ (DBInv db → DBInv (processGroups db gs).1)
  | [], db => by
    unfold processGroups
    exact ⟨dbExt_refl db, id⟩
  | g :: rest, db => by
    rcases hc : processGroup db g with ⟨db1, b⟩
    have hx : dbExt db db1 ∧ (DBInv db → DBInv db1) := by
      have := processGroup_ext_inv db g
      rw [hc] at this
      exact this
    cases b with
    | false =>
      unfold processGroups
      rw [hc]
      exact hx
    | true =>
      have hrest := processGroups_ext_inv rest db1
      unfold processGroups
      rw [hc]
      exact ⟨dbExt_trans hx.1 hrest.1, fun hi => hrest.2 (hx.2 hi)⟩

theorem processFixture_rerun {db db' dbF : DB} {lid : Nat} {vid : Option Nat}
    {fx : FixtureRec}
    (hrun : processFixture db lid vid fx = (db', true))
    (hlid : ∃ r ∈ db.leagues, r.id = lid)
    (hvid : ∀ v, vid = some v → ∃ r ∈ db.venues, r.id = v)
    (hext : dbExt db' dbF) (hinv : DBInv dbF) :
    processFixture dbF lid vid fx = (dbF, true) := by
  rcases hc1 : get_or_create_team db fx.homeName with ⟨db1, o1⟩
  unfold processFixture at hrun
  rw [hc1] at hrun
  cases o1 with
  | none => exact absurd (congrArg Prod.snd hrun) (by simp)
  | some htid =>
  dsimp only at hrun
  rcases hc2 : get_or_create_team db1 fx.awayName with ⟨db2, o2⟩
  rw [hc2] at hrun
  cases o2 with
  | none => exact absurd (congrArg Prod.snd hrun) (by simp)
  | some atid =>
  dsimp only at hrun
  have hdb' : (insert_fixture db2 lid vid htid atid (storedKickoff fx.dt) fx.result).1 = db' := by
    have := congrArg Prod.fst hrun
    exact this
  obtain ⟨hext1, r_h, hmem_h, hslug_h, hid_h⟩ := get_or_create_team_run hc1
  obtain ⟨hext2, r_a, hmem_a, hslug_a, hid_a⟩ := get_or_create_team_run hc2
  have hext3 : dbExt db2 db' := by
    have := insert_fixture_ext db2 lid vid htid atid (storedKickoff fx.dt) fx.result
    rw [hdb'] at this
    exact this
  have hkey : ∃ f ∈ db'.fixtures, fixtureKey f = (lid, htid, atid, storedKickoff fx.dt) := by
    have hl2 : ∃ r ∈ db2.leagues, r.id = lid := by
      obtain ⟨r, hr, hid⟩ := hlid
      exact ⟨r, mem_of_tableExt (dbExt_trans hext1 hext2).2.2.1 hr, hid⟩
    have hh2 : ∃ r ∈ db2.teams, r.id = htid :=
      ⟨r_h, mem_of_tableExt hext2.2.2.2.1 hmem_h, hid_h⟩
    have ha2 : ∃ r ∈ db2.teams, r.id = atid := ⟨r_a, hmem_a, hid_a⟩
    have hv2 : ∀ v, vid = some v → ∃ r ∈ db2.venues, r.id = v := by
      intro v hv
      obtain ⟨r, hr, hid⟩ := hvid v hv
      exact ⟨r, mem_of_tableExt (dbExt_trans hext1 hext2).2.1 hr, hid⟩
    have := insert_fixture_run (storedKickoff fx.dt) fx.result hl2 hh2 ha2 hv2
    rw [hdb'] at this
    exact this
  have hrerun_h : get_or_create_team dbF fx.homeName = (dbF, some htid) := by
    have hm : r_h ∈ dbF.teams :=
      mem_of_tableExt hext.2.2.2.1
        (mem_of_tableExt hext3.2.2.2.1 (mem_of_tableExt hext2.2.2.2.1 hmem_h))
    have := get_or_create_team_rerun hinv.2.2.1 hm hslug_h
    rw [hid_h] at this
    exact this
  have hrerun_a : get_or_create_team dbF fx.awayName = (dbF, some atid) := by
    have hm : r_a ∈ dbF.teams :=
      mem_of_tableExt hext.2.2.2.1 (mem_of_tableExt hext3.2.2.2.1 hmem_a)
    have := get_or_create_team_rerun hinv.2.2.1 hm hslug_a
    rw [hid_a] at this
    exact this
  have hdup : insert_fixture dbF lid vid htid atid (storedKickoff fx.dt) fx.result
      = (dbF, none) := by
    obtain ⟨f, hf, hkf⟩ := hkey
    exact insert_fixture_dup vid fx.result ⟨f, mem_of_tableExt hext.2.2.2.2 hf, hkf⟩
  unfold processFixture
  rw [hrerun_h]
  dsimp only
  rw [hrerun_a]
  dsimp only
  rw [hdup]

theorem processFixtures_rerun (fxs : List FixtureRec) :
    ∀ {db db' dbF : DB} {lid : Nat} {vid : Option Nat},
    processFixtures db lid vid fxs = (db', true) →
    (∃ r ∈ db.leagues, r.id = lid) →
    (∀ v, vid = some v → ∃ r ∈ db.venues, r.id = v) →
    dbExt db' dbF → DBInv dbF →
    processFixtures dbF lid vid fxs = (dbF, true) := by
  induction fxs with
  | nil =>
    intro db db' dbF lid vid hrun hlid hvid hext hinv
    rfl
  | cons fx rest ih =>
    intro db db' dbF lid vid hrun hlid hvid hext hinv
    rcases hc : processFixture db lid vid fx with ⟨db1, b⟩
    unfold processFixtures at hrun
    rw [hc] at hrun
    cases b with
    | false => exact absurd (congrArg Prod.snd hrun) (by simp)
    | true =>
      dsimp only at hrun
      have hext01 : dbExt db db1 := by
        have := (processFixture_ext_inv db lid vid fx).1
        rw [hc] at this
        exact this
      have hextRest : dbExt db1 db' := by
        have := (processFixtures_ext_inv rest db1 lid vid).1
        rw [hrun] at this
        exact this
      have hhead := processFixture_rerun hc hlid hvid (dbExt_trans hextRest hext) hinv
      have hlid1 : ∃ r ∈ db1.leagues, r.id = lid := by
        obtain ⟨r, hr, hid⟩ := hlid
        exact ⟨r, mem_of_tableExt hext01.2.2.1 hr, hid⟩
      have hvid1 : ∀ v, vid = some v → ∃ r ∈ db1.venues, r.id = v := by
        intro v hv
        obtain ⟨r, hr, hid⟩ := hvid v hv
        exact ⟨r, mem_of_tableExt hext01.2.1 hr, hid⟩
      have htail := ih hrun hlid1 hvid1 hext hinv
      unfold processFixtures
      rw [hhead]
      dsimp only
      exact htail

theorem processLeague_rerun {db db' dbF : DB} {gid : Nat} (gid' : Nat) {lc : LeagueContent}
    (hrun : processLeague db gid lc = (db', true))
    (hext : dbExt db' dbF) (hinv : DBInv dbF) :
    processLeague dbF gid' lc = (dbF, true) := by
  rcases hc1 : get_or_create_league db gid lc.name lc.url with ⟨db1, o1⟩
  unfold processLeague at hrun
  rw [hc1] at hrun
  cases o1 with
  | none => exact absurd (congrArg Prod.snd hrun) (by simp)
  | some lid =>
  dsimp only at hrun
  rcases hc2 : get_or_create_venue db1 lc.venue with ⟨db2, vid⟩
  rw [hc2] at hrun
  dsimp only at hrun
  obtain ⟨hext1, r_l, hmem_l, hslug_l, hid_l⟩ := get_or_create_league_run hc1
  have hext2 : dbExt db1 db2 := by
    have := get_or_create_venue_ext db1 lc.venue
    rw [hc2] at this
    exact this
  have hextF : dbExt db2 db' := by
    have := (processFixtures_ext_inv lc.fixtures db2 lid vid).1
    rw [hrun] at this
    exact this
  have hrerun_l : get_or_create_league dbF gid' lc.name lc.url = (dbF, some lid) := by
    have hm : r_l ∈ dbF.leagues :=
      mem_of_tableExt hext.2.2.1
        (mem_of_tableExt hextF.2.2.1 (mem_of_tableExt hext2.2.2.1 hmem_l))
    have := get_or_create_league_rerun hinv.2.1 hm hslug_l gid' lc.url
    rw [hid_l] at this
    exact this
  have hrerun_v : get_or_create_venue dbF lc.venue = (dbF, vid) := by
    cases hu : lc.venue.url with
    | none =>
      have hv1 := get_or_create_venue_none db1 hu
      rw [hv1] at hc2
      rw [Prod.mk.injEq] at hc2
      rw [get_or_create_venue_none dbF hu, hc2.2]
    | some u =>
      obtain ⟨hextv, i, hvi, r_v, hmem_v, hurl_v, hid_v⟩ := get_or_create_venue_run_some hu hc2
      have hm : r_v ∈ dbF.venues :=
        mem_of_tableExt hext.2.1 (mem_of_tableExt hextF.2.1 hmem_v)
      have := get_or_create_venue_rerun dbF hu hinv.2.2.2.1 hm hurl_v
      rw [hid_v, ← hvi] at this
      exact this
  have hlid2 : ∃ r ∈ db2.leagues, r.id = lid :=
    ⟨r_l, mem_of_tableExt hext2.2.2.1 hmem_l, hid_l⟩
  have hvid2 : ∀ v, vid = some v → ∃ r ∈ db2.venues, r.id = v := by
    intro v hv
    cases hu : lc.venue.url with
    | none =>
      have hv1 := get_or_create_venue_none db1 hu
      rw [hv1] at hc2
      rw [Prod.mk.injEq] at hc2
      rw [← hc2.2] at hv
      cases hv
    | some u =>
      obtain ⟨hextv, i, hvi, r_v, hmem_v, hurl_v, hid_v⟩ := get_or_create_venue_run_some hu hc2
      rw [hvi] at hv
      injection hv with hv
      exact ⟨r_v, hmem_v, by rw [hid_v, hv]⟩
  have hfix := processFixtures_rerun lc.fixtures hrun hlid2 hvid2 hext hinv
  unfold processLeague
  rw [hrerun_l]
  dsimp only
  rw [hrerun_v]
  exact hfix

theorem processLeagues_rerun (lcs : List LeagueContent) :
    ∀ {db db' dbF : DB} {gid : Nat} (gid' : Nat),
    processLeagues db gid lcs = (db', true) →
    dbExt db' dbF → DBInv dbF →
    processLeagues dbF gid' lcs = (dbF, true) := by
  induction lcs with
  | nil =>
    intro db db' dbF gid gid' hrun hext hinv
    rfl
  | cons lc rest ih =>
    intro db db' dbF gid gid' hrun hext hinv
    rcases hc : processLeague db gid lc with ⟨db1, b⟩
    unfold processLeagues at hrun
    rw [hc] at hrun
    cases b with
    | false => exact absurd (congrArg Prod.snd hrun) (by simp)
    | true =>
      dsimp only at hrun
      have hextRest : dbExt db1 db' := by
        have := (processLeagues_ext_inv rest db1 gid).1
        rw [hrun] at this
        exact this
      have hhead := processLeague_rerun gid' hc (dbExt_trans hextRest hext) hinv
      have htail := ih gid' hrun hext hinv
      unfold processLeagues
      rw [hhead]
      dsimp only
      exact htail

theorem processGroup_rerun {db db' dbF : DB} {g : GroupContent}
    (hrun : processGroup db g = (db', true))
    (hext : dbExt db' dbF) (hinv : DBInv dbF) :
    processGroup dbF g = (dbF, true) := by
  rcases hc1 : get_or_create_league_group db g.name with ⟨db1, o1⟩
  unfold processGroup at hrun
  rw [hc1] at hrun
  cases o1 with
  | none => exact absurd (congrArg Prod.snd hrun) (by simp)
  | some gid =>
  dsimp only at hrun
  obtain ⟨hext1, r_g, hmem_g, hslug_g, hid_g⟩ := get_or_create_league_group_run hc1
  have hextL : dbExt db1 db' := by
    have := (processLeagues_ext_inv g.leagues db1 gid).1
    rw [hrun] at this
    exact this
  have hrerun_g : get_or_create_league_group dbF g.name = (dbF, some gid) := by
    have hm : r_g ∈ dbF.leagueGroups :=
      mem_of_tableExt hext.1 (mem_of_tableExt hextL.1 hmem_g)
    have := get_or_create_league_group_rerun hinv.1 hm hslug_g
    rw [hid_g] at this
    exact this
  have htail := processLeagues_rerun g.leagues gid hrun hext hinv
  unfold processGroup
  rw [hrerun_g]
  dsimp only
  exact htail

theorem processGroups_rerun (gs : List GroupContent) :
    ∀ {db db' dbF : DB},
    processGroups db gs = (db', true) →
    dbExt db' dbF → DBInv dbF →
    processGroups dbF gs = (dbF, true) := by
  induction gs with
  | nil =>
    intro db db' dbF hrun hext hinv
    rfl
  | cons g rest ih =>
    intro db db' dbF hrun hext hinv
    rcases hc : processGroup db g with ⟨db1, b⟩
    unfold processGroups at hrun
    rw [hc] at hrun
    cases b with
    | false => exact absurd (congrArg Prod.snd hrun) (by simp)
    | true =>
      dsimp only at hrun
      have hextRest : dbExt db1 db' := by
        have := (processGroups_ext_inv rest db1).1
        rw [hrun] at this
        exact this
      have hhead := processGroup_rerun hc (dbExt_trans hextRest hext) hinv
      have htail := ih hrun hext hinv
      unfold processGroups
      rw [hhead]
      dsimp only
      exact htail

/-! ## Claims -/

/-- C1.  Re-crawl idempotence: if a crawl of some extracted content completes
against a store satisfying the schema's uniqueness constraints, then crawling
the identical content again leaves the store exactly as it was (hence every
table keeps exactly the row count of the first run: the second run inserts no
new rows). -/
theorem crawl_recrawl_idempotent (limit : Option Nat) (content : List GroupContent)
    (db0 db1 : DB) (hinv : DBInv db0)
    (hrun : crawl_and_populate_db limit content db0 = (db1, true)) :
    crawl_and_populate_db limit content db1 = (db1, true) := by
  unfold crawl_and_populate_db at hrun ⊢
  have hinv1 : DBInv db1 := by
    have := (processGroups_ext_inv (limitGroups limit content) db0).2 hinv
    rw [hrun] at this
    exact this
  exact processGroups_rerun _ hrun (dbExt_refl db1) hinv1

theorem crawl_recrawl_idempotent_witness :
    crawl_and_populate_db none [exGroupC1]
        ((crawl_and_populate_db none [exGroupC1] dbEmpty).1) =
      ((crawl_and_populate_db none [exGroupC1] dbEmpty).1, true) :=
  crawl_recrawl_idempotent none [exGroupC1] dbEmpty _
    ⟨List.Pairwise.nil, List.Pairwise.nil, List.Pairwise.nil, List.Pairwise.nil,
      List.Pairwise.nil, List.Pairwise.nil⟩ rfl

theorem countP_eq_one_of_key_unique {α β : Type} {key : α → β} {l : List α} {k : β}
    {p : α → Bool}
    (hp : ∀ a, p a = true ↔ key a = k)
    (huniq : l.Pairwise (fun a b => key a ≠ key b))
    (hex : ∃ a ∈ l, key a = k) :
    l.countP p = 1 := by
  induction l with
  | nil =>
    obtain ⟨a, ha, _⟩ := hex
    cases ha
  | cons x xs ih =>
    rw [List.countP_cons]
    obtain ⟨a, ha, hka⟩ := hex
    rcases List.mem_cons.mp ha with rfl | haxs
    · rw [if_pos ((hp a).mpr hka)]
      have h0 : xs.countP p = 0 := by
        rw [List.countP_eq_zero]
        intro b hb hpb
        have hkb : key b = k := (hp b).mp hpb
        have hne := (List.pairwise_cons.mp huniq).1 b hb
        exact hne (hka.trans hkb.symm)
      rw [h0]
    · have hxk : key x ≠ k := by
        have hne := (List.pairwise_cons.mp huniq).1 a haxs
        intro hxx
        exact hne (hxx.trans hka.symm)
      rw [if_neg (fun hpx => hxk ((hp x).mp hpx))]
      have := ih (List.pairwise_cons.mp huniq).2 ⟨a, haxs, hka⟩
      omega

/-- C2.  Inserting a fixture whose `(league_id, home_team_id, away_team_id,
dt_utc)` key is already present is a no-op: `insert_fixture` catches the
uniqueness violation, returns `None`, leaves the store unchanged, and the
fixture table still holds exactly one row with that key. -/
theorem insert_fixture_duplicate_noop (db : DB) (lid : Nat) (vid : Option Nat)
    (hId aId : Nat) (dt : String) (res : Option String)
    (huniq : fixtureKeysUnique db)
    (hdup : ∃ f ∈ db.fixtures, fixtureKey f = (lid, hId, aId, dt)) :
    insert_fixture db lid vid hId aId dt res = (db, none) ∧
    (insert_fixture db lid vid hId aId dt res).1.fixtures.countP
      (fixtureKeyMatch lid hId aId dt) = 1 := by
  have h1 := insert_fixture_dup vid res hdup
  refine ⟨h1, ?_⟩
  rw [h1]
  exact countP_eq_one_of_key_unique (fun a => fixtureKeyMatch_iff) huniq hdup

theorem insert_fixture_duplicate_noop_witness :
    insert_fixture exDbC2 1 none 1 2 "100+0" none = (exDbC2, none) ∧
    (insert_fixture exDbC2 1 none 1 2 "100+0" none).1.fixtures.countP
      (fixtureKeyMatch 1 1 2 "100+0") = 1 :=
  insert_fixture_duplicate_noop exDbC2 1 none 1 2 "100+0" none
    (List.pairwise_singleton _ _)
    ⟨⟨1, 1, none, 1, 2, "100+0", none⟩, List.mem_singleton_self _, rfl⟩

/-- C3 counterexample.  The claim "every fixture row produced by the crawl has
`home_team_id ≠ away_team_id`, including when two distinct display names
slugify to the same team slug" is false: crawling a fixture between `"A B"`
and `"A-B"` (both slugify to `a_b`) resolves both sides to the same team row
and stores a self-matched fixture. -/
theorem fixture_self_match_counterexample :
    (crawl_and_populate_db none [exGroupC3] dbEmpty).2 = true ∧
    ∃ f ∈ (crawl_and_populate_db none [exGroupC3] dbEmpty).1.fixtures,
      f.homeTeamId = f.awayTeamId := by
  constructor
  · rfl
  · refine ⟨⟨1, 1, none, 1, 1, "100+0", none⟩, ?_, rfl⟩
    decide

theorem get_or_create_team_fixtures (db : DB) (n : String) :
    (get_or_create_team db n).1.fixtures = db.fixtures := by
  dsimp only [get_or_create_team]
  split <;> rfl

theorem get_or_create_league_group_fixtures (db : DB) (n : String) :
    (get_or_create_league_group db n).1.fixtures = db.fixtures := by
  dsimp only [get_or_create_league_group]
  split <;> rfl

theorem get_or_create_league_fixtures (db : DB) (gid : Nat) (n u : String) :
    (get_or_create_league db gid n u).1.fixtures = db.fixtures := by
  dsimp only [get_or_create_league]
  split
  · rfl
  · split <;> rfl

theorem get_or_create_venue_fixtures (db : DB) (vd : VenueDict) :
    (get_or_create_venue db vd).1.fixtures = db.fixtures := by
  dsimp only [get_or_create_venue]
  split
  · rfl
  · split <;> rfl

theorem distinct_step_trans {d0 d1 d2 : DB}
    (h1 : ∀ f ∈ d1.fixtures, f ∈ d0.fixtures ∨ f.homeTeamId ≠ f.awayTeamId)
    (h2 : ∀ f ∈ d2.fixtures, f ∈ d1.fixtures ∨ f.homeTeamId ≠ f.awayTeamId) :
    ∀ f ∈ d2.fixtures, f ∈ d0.fixtures ∨ f.homeTeamId ≠ f.awayTeamId := by
  intro f hf
  rcases h2 f hf with hm | hne
  · exact h1 f hm
  · exact Or.inr hne

theorem processFixture_distinct {db : DB} (lid : Nat) (vid : Option Nat) {fx : FixtureRec}
    (hinv : DBInv db) (hs : slugify fx.homeName ≠ slugify fx.awayName) :
    ∀ f ∈ (processFixture db lid vid fx).1.fixtures,
      f ∈ db.fixtures ∨ f.homeTeamId ≠ f.awayTeamId := by
  rcases hc1 : get_or_create_team db fx.homeName with ⟨db1, o1⟩
  have hfix1 : db1.fixtures = db.fixtures := by
    have := get_or_create_team_fixtures db fx.homeName
    rw [hc1] at this
    exact this
  have hinv1 : DBInv db1 := by
    have := get_or_create_team_inv (n := fx.homeName) hinv
    rw [hc1] at this
    exact this
  cases o1 with
  | none =>
    unfold processFixture
    rw [hc1]
    intro f hf
    rw [hfix1] at hf
    exact Or.inl hf
  | some htid =>
    rcases hc2 : get_or_create_team db1 fx.awayName with ⟨db2, o2⟩
    have hfix2 : db2.fixtures = db1.fixtures := by
      have := get_or_create_team_fixtures db1 fx.awayName
      rw [hc2] at this
      exact this
    have hinv2 : DBInv db2 := by
      have := get_or_create_team_inv (n := fx.awayName) hinv1
      rw [hc2] at this
      exact this
    cases o2 with
    | none =>
      unfold processFixture
      rw [hc1]
      dsimp only
      rw [hc2]
      intro f hf
      rw [hfix2, hfix1] at hf
      exact Or.inl hf
    | some atid =>
      obtain ⟨hext1, r_h, hmem_h, hslug_h, hid_h⟩ := get_or_create_team_run hc1
      obtain ⟨hext2, r_a, hmem_a, hslug_a, hid_a⟩ := get_or_create_team_run hc2
      have hne : htid ≠ atid := by
        intro he
        have hm_h : r_h ∈ db2.teams := mem_of_tableExt hext2.2.2.2.1 hmem_h
        have heq : r_a = r_h :=
          key_unique TeamRow.id hinv2.2.2.2.2.2 hm_h hmem_a
            (by rw [hid_a, hid_h, he])
        apply hs
        rw [← hslug_h, ← hslug_a, heq]
      unfold processFixture
      rw [hc1]
      dsimp only
      rw [hc2]
      dsimp only [insert_fixture]
      split
      · intro f hf
        rw [hfix2, hfix1] at hf
        exact Or.inl hf
      · intro f hf
        rcases List.mem_append.mp hf with hold | hnew
        · rw [hfix2, hfix1] at hold
          exact Or.inl hold
        · simp only [List.mem_singleton] at hnew
          subst hnew
          exact Or.inr hne

theorem processFixtures_distinct (fxs : List FixtureRec) :
    ∀ {db : DB} {lid : Nat} {vid : Option Nat},
    DBInv db →
    (∀ fx ∈ fxs, slugify fx.homeName ≠ slugify fx.awayName) →
    ∀ f ∈ (processFixtures db lid vid fxs).1.fixtures,
      f ∈ db.fixtures ∨ f.homeTeamId ≠ f.awayTeamId := by
  induction fxs with
  | nil =>
    intro db lid vid _ _ f hf
    exact Or.inl hf
  | cons fx rest ih =>
    intro db lid vid hinv hs
    rcases hc : processFixture db lid vid fx with ⟨db1, b⟩
    have hstep : ∀ f ∈ db1.fixtures, f ∈ db.fixtures ∨ f.homeTeamId ≠ f.awayTeamId := by
      have := processFixture_distinct lid vid hinv
        (hs fx (List.mem_cons_self fx rest))
      rw [hc] at this
      exact this
    have hinv1 : DBInv db1 := by
      have := (processFixture_ext_inv db lid vid fx).2 hinv
      rw [hc] at this
      exact this
    cases b with
    | false =>
      unfold processFixtures
      rw [hc]
      exact hstep
    | true =>
      unfold processFixtures
      rw [hc]
      dsimp only
      exact distinct_step_trans hstep
        (ih hinv1 (fun g hg => hs g (List.mem_cons_of_mem fx hg)))

theorem processLeague_distinct {db : DB} (gid : Nat) {lc : LeagueContent}
    (hinv : DBInv db)
    (hs : ∀ fx ∈ lc.fixtures, slugify fx.homeName ≠ slugify fx.awayName) :
    ∀ f ∈ (processLeague db gid lc).1.fixtures,
      f ∈ db.fixtures ∨ f.homeTeamId ≠ f.awayTeamId := by
  rcases hc1 : get_or_create_league db gid lc.name lc.url with ⟨db1, o1⟩
  have hfix1 : db1.fixtures = db.fixtures := by
    have := get_or_create_league_fixtures db gid lc.name lc.url
    rw [hc1] at this
    exact this
  have hinv1 : DBInv db1 := by
    have := get_or_create_league_inv gid lc.name lc.url hinv
    rw [hc1] at this
    exact this
  cases o1 with
  | none =>
    unfold processLeague
    rw [hc1]
    intro f hf
    rw [hfix1] at hf
    exact Or.inl hf
  | some lid =>
    rcases hc2 : get_or_create_venue db1 lc.venue with ⟨db2, vid⟩
    have hfix2 : db2.fixtures = db1.fixtures := by
      have := get_or_create_venue_fixtures db1 lc.venue
      rw [hc2] at this
      exact this
    have hinv2 : DBInv db2 := by
      have := get_or_create_venue_inv lc.venue hinv1
      rw [hc2] at this
      exact this
    unfold processLeague
    rw [hc1]
    dsimp only
    rw [hc2]
    dsimp only
    intro f hf
    rcases processFixtures_distinct lc.fixtures hinv2 hs f hf with hold | hne
    · rw [hfix2, hfix1] at hold
      exact Or.inl hold
    · exact Or.inr hne

theorem processLeagues_distinct (lcs : List LeagueContent) :
    ∀ {db : DB} {gid : Nat},
    DBInv db →
    (∀ lc ∈ lcs, ∀ fx ∈ lc.fixtures, slugify fx.homeName ≠ slugify fx.awayName) →
    ∀ f ∈ (processLeagues db gid lcs).1.fixtures,
      f ∈ db.fixtures ∨ f.homeTeamId ≠ f.awayTeamId := by
  induction lcs with
  | nil =>
    intro db gid _ _ f hf
    exact Or.inl hf
  | cons lc rest ih =>
    intro db gid hinv hs
    rcases hc : processLeague db gid lc with ⟨db1, b⟩
    have hstep : ∀ f ∈ db1.fixtures, f ∈ db.fixtures ∨ f.homeTeamId ≠ f.awayTeamId := by
      have := processLeague_distinct gid hinv (hs lc (List.mem_cons_self lc rest))
      rw [hc] at this
      exact this
    have hinv1 : DBInv db1 := by
      have := (processLeague_ext_inv db gid lc).2 hinv
      rw [hc] at this
      exact this
    cases b with
    | false =>
      unfold processLeagues
      rw [hc]
      exact hstep
    | true =>
      unfold processLeagues
      rw [hc]
      dsimp only
      exact distinct_step_trans hstep
        (ih hinv1 (fun l hl => hs l (List.mem_cons_of_mem lc hl)))

theorem processGroup_distinct {db : DB} {g : GroupContent}
    (hinv : DBInv db)
    (hs : ∀ lc ∈ g.leagues, ∀ fx ∈ lc.fixtures,
      slugify fx.homeName ≠ slugify fx.awayName) :
    ∀ f ∈ (processGroup db g).1.fixtures,
      f ∈ db.fixtures ∨ f.homeTeamId ≠ f.awayTeamId := by
  rcases hc1 : get_or_create_league_group db g.name with ⟨db1, o1⟩
  have hfix1 : db1.fixtures = db.fixtures := by
    have := get_or_create_league_group_fixtures db g.name
    rw [hc1] at this
    exact this
  have hinv1 : DBInv db1 := by
    have := get_or_create_league_group_inv (n := g.name) hinv
    rw [hc1] at this
    exact this
  cases o1 with
  | none =>
    unfold processGroup
    rw [hc1]
    intro f hf
    rw [hfix1] at hf
    exact Or.inl hf
  | some gid =>
    unfold processGroup
    rw [hc1]
    dsimp only
    intro f hf
    rcases processLeagues_distinct g.leagues hinv1 hs f hf with hold | hne
    · rw [hfix1] at hold
      exact Or.inl hold
    · exact Or.inr hne

theorem processGroups_distinct (gs : List GroupContent) :
    ∀ {db : DB},
    DBInv db →
    (∀ g ∈ gs, ∀ lc ∈ g.leagues, ∀ fx ∈ lc.fixtures,
      slugify fx.homeName ≠ slugify fx.awayName) →
    ∀ f ∈ (processGroups db gs).1.fixtures,
      f ∈ db.fixtures ∨ f.homeTeamId ≠ f.awayTeamId := by
  induction gs with
  | nil =>
    intro db _ _ f hf
    exact Or.inl hf
  | cons g rest ih =>
    intro db hinv hs
    rcases hc : processGroup db g with ⟨db1, b⟩
    have hstep : ∀ f ∈ db1.fixtures, f ∈ db.fixtures ∨ f.homeTeamId ≠ f.awayTeamId := by
      have := processGroup_distinct hinv (hs g (List.mem_cons_self g rest))
      rw [hc] at this
      exact this
    have hinv1 : DBInv db1 := by
      have := (processGroup_ext_inv db g).2 hinv
      rw [hc] at this
      exact this
    cases b with
    | false =>
      unfold processGroups
      rw [hc]
      exact hstep
    | true =>
      unfold processGroups
      rw [hc]
      dsimp only
      exact distinct_step_trans hstep
        (ih hinv1 (fun x hx => hs x (List.mem_cons_of_mem g hx)))

theorem mem_limitGroups {limit : Option Nat} {content : List GroupContent}
    {g : GroupContent} (h : g ∈ limitGroups limit content) : g ∈ content := by
  unfold limitGroups at h
  cases limit with
  | none => exact h
  | some n =>
    dsimp only at h
    by_cases h0 : (n == 0) = true
    · rw [if_pos h0] at h
      exact h
    · rw [if_neg h0] at h
      exact List.take_subset n content h

/-- C3 (amended).  The crawl stores a fixture with two distinct team
references whenever the two display names have distinct slugs; when the two
names slugify to the same slug, both sides resolve to the same team row (see
the counterexample), so the distinct-teams invariant holds exactly for
slug-distinct name pairs.  Stated over any starting store satisfying the
schema constraints: every fixture row of the resulting store is either an old
row or has `home_team_id ≠ away_team_id`. -/
theorem fixture_teams_distinct_of_slug_ne (limit : Option Nat)
    (content : List GroupContent) (db0 db1 : DB) (b : Bool)
    (hinv : DBInv db0)
    (hnames : ∀ g ∈ content, ∀ lc ∈ g.leagues, ∀ fx ∈ lc.fixtures,
      slugify fx.homeName ≠ slugify fx.awayName)
    (hrun : crawl_and_populate_db limit content db0 = (db1, b)) :
    ∀ f ∈ db1.fixtures, f ∈ db0.fixtures ∨ f.homeTeamId ≠ f.awayTeamId := by
  unfold crawl_and_populate_db at hrun
  have := processGroups_distinct (limitGroups limit content) hinv
    (fun g hg => hnames g (mem_limitGroups hg))
  rw [hrun] at this
  exact this

theorem fixture_teams_distinct_of_slug_ne_witness :
    (⟨1, 1, none, 1, 2, "100+0", none⟩ : FixtureRow) ∈ dbEmpty.fixtures ∨
    (⟨1, 1, none, 1, 2, "100+0", none⟩ : FixtureRow).homeTeamId ≠
      (⟨1, 1, none, 1, 2, "100+0", none⟩ : FixtureRow).awayTeamId :=
  fixture_teams_distinct_of_slug_ne none [exGroupC3w] dbEmpty
    (crawl_and_populate_db none [exGroupC3w] dbEmpty).1
    (crawl_and_populate_db none [exGroupC3w] dbEmpty).2
    ⟨List.Pairwise.nil, List.Pairwise.nil, List.Pairwise.nil, List.Pairwise.nil,
      List.Pairwise.nil, List.Pairwise.nil⟩
    (by decide) rfl ⟨1, 1, none, 1, 2, "100+0", none⟩ (by decide)

/-- C4.  The claim (and the crawler's own docstring, "Uses a single DB
transaction for the entire run") says an interrupted run leaves none of its
writes; the code commits after every helper call (`conn.commit()` inside each
get-or-create and `insert_fixture`), so writes survive a mid-run failure.
Evaluated at a two-group content whose second group's league reuses the url
of the first group's league under a different slug (which makes
`get_or_create_league`'s re-select crash): the run fails, yet both
league-group rows and the first league row are durably present. -/
theorem crawl_partial_commit_on_failure :
    (crawl_and_populate_db none exGroupsC4 dbEmpty).2 = false ∧
    (crawl_and_populate_db none exGroupsC4 dbEmpty).1.leagueGroups.length = 2 ∧
    (crawl_and_populate_db none exGroupsC4 dbEmpty).1.leagues.length = 1 := by
  decide

/-- C5 counterexample.  "The exponential backoff delays of 1s, 2s, 4s occur
only between attempts" is false: when every attempt fails, the 4-second sleep
is emitted after the third and final attempt (the loop body sleeps even on
the last iteration), with no further attempt following it. -/
theorem safe_get_trailing_sleep_counterexample :
    ¬ sleepsOnlyBetweenAttempts (safe_get allFailC5).1 := by
  decide

/-- C5 (amended).  `safe_get` makes at most 3 attempts; a fetch failing twice
then succeeding returns the third response with exactly two warning events,
no error event, and its 1s and 2s delays lie between attempts; a fetch
failing three times returns `None` with exactly one error-level exhaustion
event, and its delays are 1s, 2s and 4s, the 4s one coming after the final
attempt (not between attempts), directly before the error log. -/
theorem safe_get_retry_contract :
    (∀ s : Nat → Bool, (safe_get s).1.countP isAttemptEvent ≤ 3) ∧
    ((safe_get failTwiceC5).2 = some 3 ∧
      (safe_get failTwiceC5).1.countP isWarnEvent = 2 ∧
      (safe_get failTwiceC5).1.countP isErrorEvent = 0 ∧
      sleepsOnlyBetweenAttempts (safe_get failTwiceC5).1) ∧
    ((safe_get allFailC5).2 = none ∧
      (safe_get allFailC5).1.countP isErrorEvent = 1 ∧
      (safe_get allFailC5).1 =
        [NetEvent.attempt 1, NetEvent.warn 1, NetEvent.sleepFor 1,
         NetEvent.attempt 2, NetEvent.warn 2, NetEvent.sleepFor 2,
         NetEvent.attempt 3, NetEvent.warn 3, NetEvent.sleepFor 4,
         NetEvent.errorLog]) := by
  refine ⟨?_, by decide, by decide⟩
  intro s
  cases h1 : s 1 <;> cases h2 : s 2 <;> cases h3 : s 3 <;>
    simp [safe_get, safe_get_from, h1, h2, h3, List.countP_cons, List.countP_nil,
      isAttemptEvent]

/-- C6 counterexample.  `get_or_create_league` does not always return an id:
starting from an empty store, creating group `"G"` and league `"A"` at url
`"u"`, a later call for a league named `"B"` with the same url `"u"` has its
`INSERT OR IGNORE` skipped by the url conflict, and the re-select by the new
slug `"b"` finds no row, so `cur.fetchone()[0]` raises (`none`). -/
theorem get_or_create_league_url_collision_fails :
    (get_or_create_league (get_or_create_league_group dbEmpty "G").1 1 "A" "u").1 = exDbC6 ∧
    get_or_create_league exDbC6 1 "B" "u" = (exDbC6, none) := by
  decide

theorem get_or_create_league_group_total {db : DB} {n : String}
    (hcons : lgConsistent db) :
    ∃ i, (get_or_create_league_group db n).2 = some i ∧
      ∃ r ∈ (get_or_create_league_group db n).1.leagueGroups,
        r.slug = slugify n ∧ r.id = i := by
  dsimp only [get_or_create_league_group]
  split
  · rename_i hconf
    have hex : ∃ r ∈ db.leagueGroups, (fun t => t.slug == slugify n) r = true := by
      obtain ⟨r, hr, hpr⟩ := List.any_eq_true.mp hconf
      rw [Bool.or_eq_true] at hpr
      rcases hpr with hname | hslug
      · refine ⟨r, hr, ?_⟩
        rw [beq_iff_eq, hcons r hr, eq_of_beq hname]
      · exact ⟨r, hr, hslug⟩
    have hsome : (db.leagueGroups.find? (fun t => t.slug == slugify n)).isSome := by
      rw [List.find?_isSome]
      exact hex
    obtain ⟨r, hfind⟩ := Option.isSome_iff_exists.mp hsome
    refine ⟨r.id, by rw [hfind]; rfl, r, List.mem_of_find?_eq_some hfind, ?_, rfl⟩
    have hbeq := List.find?_some hfind
    exact eq_of_beq hbeq
  · have hmemnew : (⟨nextLeagueGroupId db, n, slugify n⟩ : LeagueGroupRow) ∈
        db.leagueGroups ++ [⟨nextLeagueGroupId db, n, slugify n⟩] :=
      List.mem_append_right _ (List.mem_singleton_self _)
    have hsome : (List.find? (fun t => t.slug == slugify n)
        (db.leagueGroups ++ [(⟨nextLeagueGroupId db, n, slugify n⟩ : LeagueGroupRow)])).isSome := by
      rw [List.find?_isSome]
      exact ⟨_, hmemnew, by simp⟩
    obtain ⟨r, hfind⟩ := Option.isSome_iff_exists.mp hsome
    refine ⟨r.id, by rw [hfind]; rfl, r, List.mem_of_find?_eq_some hfind, ?_, rfl⟩
    have hbeq := List.find?_some hfind
    exact eq_of_beq hbeq

theorem get_or_create_team_total {db : DB} {n : String}
    (hcons : teamConsistent db) :
    ∃ i, (get_or_create_team db n).2 = some i ∧
      ∃ r ∈ (get_or_create_team db n).1.teams, r.slug = slugify n ∧ r.id = i := by
  dsimp only [get_or_create_team]
  split
  · rename_i hconf
    have hex : ∃ r ∈ db.teams, (fun t => t.slug == slugify n) r = true := by
      obtain ⟨r, hr, hpr⟩ := List.any_eq_true.mp hconf
      rw [Bool.or_eq_true] at hpr
      rcases hpr with hname | hslug
      · refine ⟨r, hr, ?_⟩
        rw [beq_iff_eq, hcons r hr, eq_of_beq hname]
      · exact ⟨r, hr, hslug⟩
    have hsome : (db.teams.find? (fun t => t.slug == slugify n)).isSome := by
      rw [List.find?_isSome]
      exact hex
    obtain ⟨r, hfind⟩ := Option.isSome_iff_exists.mp hsome
    refine ⟨r.id, by rw [hfind]; rfl, r, List.mem_of_find?_eq_some hfind, ?_, rfl⟩
    have hbeq := List.find?_some hfind
    exact eq_of_beq hbeq
  · have hmemnew : (⟨nextTeamId db, n, slugify n⟩ : TeamRow) ∈
        db.teams ++ [⟨nextTeamId db, n, slugify n⟩] :=
      List.mem_append_right _ (List.mem_singleton_self _)
    have hsome : (List.find? (fun t => t.slug == slugify n)
        (db.teams ++ [(⟨nextTeamId db, n, slugify n⟩ : TeamRow)])).isSome := by
      rw [List.find?_isSome]
      exact ⟨_, hmemnew, by simp⟩
    obtain ⟨r, hfind⟩ := Option.isSome_iff_exists.mp hsome
    refine ⟨r.id, by rw [hfind]; rfl, r, List.mem_of_find?_eq_some hfind, ?_, rfl⟩
    have hbeq := List.find?_some hfind
    exact eq_of_beq hbeq

theorem get_or_create_league_total {db : DB} {gid : Nat} {n u : String}
    (hcons : leagueConsistent db)
    (hgid : (∃ r ∈ db.leagueGroups, r.id = gid) ∨
      (db.leagues.any fun r => r.url == u || r.slug == slugify n) = true)
    (hurl : ∀ r ∈ db.leagues, r.url = u → slugify r.name = slugify n) :
    ∃ i, (get_or_create_league db gid n u).2 = some i ∧
      ∃ r ∈ (get_or_create_league db gid n u).1.leagues, r.slug = slugify n ∧ r.id = i := by
  dsimp only [get_or_create_league]
  split
  · rename_i hconf
    have hex : ∃ r ∈ db.leagues, (fun t => t.slug == slugify n) r = true := by
      obtain ⟨r, hr, hpr⟩ := List.any_eq_true.mp hconf
      rw [Bool.or_eq_true] at hpr
      rcases hpr with hu | hslug
      · refine ⟨r, hr, ?_⟩
        rw [beq_iff_eq, hcons r hr, hurl r hr (eq_of_beq hu)]
      · exact ⟨r, hr, hslug⟩
    have hsome : (db.leagues.find? (fun t => t.slug == slugify n)).isSome := by
      rw [List.find?_isSome]
      exact hex
    obtain ⟨r, hfind⟩ := Option.isSome_iff_exists.mp hsome
    refine ⟨r.id, by rw [hfind]; rfl, r, List.mem_of_find?_eq_some hfind, ?_, rfl⟩
    have hbeq := List.find?_some hfind
    exact eq_of_beq hbeq
  · rename_i hconf
    split
    · have hmemnew : (⟨nextLeagueId db, gid, n, u, slugify n⟩ : LeagueRow) ∈
          db.leagues ++ [⟨nextLeagueId db, gid, n, u, slugify n⟩] :=
        List.mem_append_right _ (List.mem_singleton_self _)
      have hsome : (List.find? (fun t => t.slug == slugify n)
          (db.leagues ++ [(⟨nextLeagueId db, gid, n, u, slugify n⟩ : LeagueRow)])).isSome := by
        rw [List.find?_isSome]
        exact ⟨_, hmemnew, by simp⟩
      obtain ⟨r, hfind⟩ := Option.isSome_iff_exists.mp hsome
      refine ⟨r.id, by rw [hfind]; rfl, r, List.mem_of_find?_eq_some hfind, ?_, rfl⟩
      have hbeq := List.find?_some hfind
      exact eq_of_beq hbeq
    · rename_i hfk
      exfalso
      rcases hgid with ⟨r, hr, hid⟩ | hany
      · apply hfk
        rw [List.any_eq_true]
        exact ⟨r, hr, by simp [hid]⟩
      · exact hconf hany

/-- C6 (amended).  `get_or_create_league_group` and `get_or_create_team`
always return the canonical id of the row carrying the requested slug, on any
store whose rows have consistent slugs.  `get_or_create_league` does the same
provided its `league_group_id` exists (or some unique column already
conflicts) and the url does not belong to an existing league of a different
slug --- in that last case it fails (see the counterexample) instead of
returning an id. -/
theorem get_or_create_totality_amended :
    (∀ (db : DB) (n : String), lgConsistent db →
      ∃ i, (get_or_create_league_group db n).2 = some i ∧
        ∃ r ∈ (get_or_create_league_group db n).1.leagueGroups,
          r.slug = slugify n ∧ r.id = i) ∧
    (∀ (db : DB) (n : String), teamConsistent db →
      ∃ i, (get_or_create_team db n).2 = some i ∧
        ∃ r ∈ (get_or_create_team db n).1.teams, r.slug = slugify n ∧ r.id = i) ∧
    (∀ (db : DB) (gid : Nat) (n u : String), leagueConsistent db →
      ((∃ r ∈ db.leagueGroups, r.id = gid) ∨
        (db.leagues.any fun r => r.url == u || r.slug == slugify n) = true) →
      (∀ r ∈ db.leagues, r.url = u → slugify r.name = slugify n) →
      ∃ i, (get_or_create_league db gid n u).2 = some i ∧
        ∃ r ∈ (get_or_create_league db gid n u).1.leagues,
          r.slug = slugify n ∧ r.id = i) :=
  ⟨fun _ _ hcons => get_or_create_league_group_total hcons,
   fun _ _ hcons => get_or_create_team_total hcons,
   fun _ _ _ _ hcons hgid hurl => get_or_create_league_total hcons hgid hurl⟩

theorem get_or_create_totality_amended_witness :
    ∃ i, (get_or_create_league exDbC6 1 "A" "u").2 = some i ∧
      ∃ r ∈ (get_or_create_league exDbC6 1 "A" "u").1.leagues,
        r.slug = slugify "A" ∧ r.id = i :=
  get_or_create_totality_amended.2.2 exDbC6 1 "A" "u"
    (by unfold leagueConsistent; decide) (by decide) (by decide)

theorem mem_stripChars {p : Char → Bool} {l : List Char} {c : Char}
    (h : c ∈ stripChars p l) : c ∈ l := by
  unfold stripChars at h
  rw [List.mem_reverse] at h
  have h1 := (List.dropWhile_sublist p).subset h
  rw [List.mem_reverse] at h1
  exact (List.dropWhile_sublist p).subset h1

theorem mem_collapseNonWord {b : Bool} {l : List Char} {c : Char}
    (h : c ∈ collapseNonWord b l) :
    c = '_' ∨ (c ∈ l ∧ isWordChar c = true) := by
  induction l generalizing b with
  | nil => cases h
  | cons x xs ih =>
    unfold collapseNonWord at h
    split at h
    · rename_i hw
      rcases List.mem_cons.mp h with rfl | hx
      · exact Or.inr ⟨List.mem_cons_self _ _, hw⟩
      · rcases ih hx with h' | ⟨hm, hw'⟩
        · exact Or.inl h'
        · exact Or.inr ⟨List.mem_cons_of_mem _ hm, hw'⟩
    · split at h
      · rcases ih h with h' | ⟨hm, hw'⟩
        · exact Or.inl h'
        · exact Or.inr ⟨List.mem_cons_of_mem _ hm, hw'⟩
      · rcases List.mem_cons.mp h with rfl | hx
        · exact Or.inl rfl
        · rcases ih hx with h' | ⟨hm, hw'⟩
          · exact Or.inl h'
          · exact Or.inr ⟨List.mem_cons_of_mem _ hm, hw'⟩

theorem get_or_create_team_slugs_unique {db : DB} {n : String}
    (h : teamSlugsUnique db) : teamSlugsUnique (get_or_create_team db n).1 := by
  dsimp only [get_or_create_team]
  split
  · exact h
  · rename_i hnoconf
    unfold teamSlugsUnique at h ⊢
    rw [List.pairwise_append]
    refine ⟨h, List.pairwise_singleton _ _, ?_⟩
    intro a ha b hb
    simp only [List.mem_singleton] at hb
    subst hb
    intro heq
    apply hnoconf
    rw [List.any_eq_true]
    exact ⟨a, ha, by simp [heq]⟩

/-- C7.  `slugify` is a pure deterministic function (equal inputs give equal
slugs); every character of its output is non-uppercase and is a word
character (each run of non-word characters has been collapsed to a single
underscore); and two display names with equal slugs resolve to the same team
id through `get_or_create_team`. -/
theorem slugify_deterministic_and_collision :
    (∀ s t : String, s = t → slugify s = slugify t) ∧
    (∀ s : String, ∀ c ∈ (slugify s).toList, c.isUpper = false ∧ isWordChar c = true) ∧
    (∀ (db db1 : DB) (n1 n2 : String) (i1 : Nat),
      teamSlugsUnique db → slugify n1 = slugify n2 →
      get_or_create_team db n1 = (db1, some i1) →
      get_or_create_team db1 n2 = (db1, some i1)) := by
  refine ⟨fun s t h => by rw [h], ?_, ?_⟩
  · intro s c hc
    have hc' : c ∈ stripChars (fun c => c == '_')
        (collapseNonWord false
          ((stripChars Char.isWhitespace s.toList).map Char.toLower)) := hc
    have h1 := mem_stripChars hc'
    rcases mem_collapseNonWord h1 with rfl | ⟨hm, hw⟩
    · exact ⟨by decide, by decide⟩
    · obtain ⟨d, _, rfl⟩ := List.mem_map.mp hm
      exact ⟨charToLower_not_upper d, hw⟩
  · intro db db1 n1 n2 i1 huniq h12 hrun
    obtain ⟨hext, r, hmem, hslug, hid⟩ := get_or_create_team_run hrun
    have huniq1 : teamSlugsUnique db1 := by
      have := get_or_create_team_slugs_unique (n := n1) huniq
      rw [hrun] at this
      exact this
    have := get_or_create_team_rerun (n := n2) huniq1 hmem (by rw [hslug, h12])
    rw [hid] at this
    exact this

theorem slugify_deterministic_and_collision_witness :
    get_or_create_team (get_or_create_team dbEmpty "Accrington - Weds").1
        "accrington  weds" =
      ((get_or_create_team dbEmpty "Accrington - Weds").1, some 1) :=
  slugify_deterministic_and_collision.2.2 dbEmpty
    (get_or_create_team dbEmpty "Accrington - Weds").1 "Accrington - Weds"
    "accrington  weds" 1 List.Pairwise.nil (by decide) (by decide)

/-- C8.  For a team whose stored fixtures carry kickoff texts
`T1 < T2 < T3` (in whatever order the rows were inserted --- only the multiset
of rows matters), the query behind `build_team_ics` returns them in ascending
kickoff order, and the generated event sequence is exactly one event per row
in that order. -/
theorem build_team_ics_ordered (tz : PyTimeZone) (db : DB) (team_slug : String)
    (t : TeamRow) (T1 T2 T3 : String)
    (ht : db.teams.find? (fun r => r.slug == team_slug) = some t)
    (h12 : T1 < T2) (h23 : T2 < T3)
    (hperm : List.Perm ((teamFixtureRows db t.id).map (·.dtUtc)) [T1, T2, T3]) :
    (team_ics_query db t.id).map (·.dtUtc) = [T1, T2, T3] ∧
    build_team_ics tz db team_slug =
      some ((team_ics_query db t.id).map (mkTeamEvent tz db t.id t.name)) := by
  constructor
  · have hsorted : List.Sorted fixtureDtLe (team_ics_query db t.id) :=
      List.sorted_insertionSort _ _
    have hmapsorted : List.Sorted (· ≤ ·) ((team_ics_query db t.id).map (·.dtUtc)) := by
      rw [List.Sorted, List.pairwise_map]
      exact hsorted
    have hperm2 : List.Perm ((team_ics_query db t.id).map (·.dtUtc)) [T1, T2, T3] :=
      ((List.perm_insertionSort fixtureDtLe (teamFixtureRows db t.id)).map _).trans hperm
    have hsorted3 : List.Sorted (· ≤ ·) [T1, T2, T3] := by
      refine List.sorted_cons.mpr ⟨?_, List.sorted_cons.mpr ⟨?_, List.sorted_singleton _⟩⟩
      · intro b hb
        rcases List.mem_cons.mp hb with rfl | hb3
        · exact le_of_lt h12
        · rw [List.mem_singleton] at hb3
          subst hb3
          exact le_of_lt (lt_trans h12 h23)
      · intro b hb
        rw [List.mem_singleton] at hb
        subst hb
        exact le_of_lt h23
    exact List.eq_of_perm_of_sorted hperm2 hmapsorted hsorted3
  · unfold build_team_ics
    rw [ht]
    rfl

theorem build_team_ics_ordered_witness :
    (team_ics_query exDbC8 1).map (·.dtUtc) =
      ["2025-05-12T20:45", "2025-05-19T20:45", "2025-05-26T20:45"] ∧
    build_team_ics UTCzone exDbC8 "team_x" =
      some ((team_ics_query exDbC8 1).map (mkTeamEvent UTCzone exDbC8 1 "Team X")) :=
  build_team_ics_ordered UTCzone exDbC8 "team_x" ⟨1, "Team X", "team_x"⟩
    "2025-05-12T20:45" "2025-05-19T20:45" "2025-05-26T20:45"
    (by decide) (by rw [String.lt_iff_toList_lt]; decide)
    (by rw [String.lt_iff_toList_lt]; decide) (by decide)

theorem digitChar_toNat {d : Nat} (h : d < 10) : (Nat.digitChar d).toNat = 48 + d := by
  interval_cases d <;> rfl

theorem digitChar_isDigit {d : Nat} (h : d < 10) : (Nat.digitChar d).isDigit = true := by
  interval_cases d <;> rfl

theorem natDigitsAux_spec :
    ∀ (fuel n : Nat), n < fuel →
      natDigitsAux fuel n ≠ [] ∧
      (natDigitsAux fuel n).all Char.isDigit = true ∧
      digitsVal (natDigitsAux fuel n) = n := by
  intro fuel
  induction fuel with
  | zero => intro n hn; omega
  | succ f ih =>
    intro n hn
    unfold natDigitsAux
    split
    · rename_i h10
      refine ⟨by simp, ?_, ?_⟩
      · simp [digitChar_isDigit h10]
      · unfold digitsVal
        simp [digitChar_toNat h10]
    · rename_i h10
      have hrec : n / 10 < f := by
        have : n / 10 < n := Nat.div_lt_self (by omega) (by omega)
        omega
      obtain ⟨hne, hdig, hval⟩ := ih (n / 10) hrec
      refine ⟨by simp, ?_, ?_⟩
      · rw [List.all_append, hdig]
        simp [digitChar_isDigit (Nat.mod_lt n (by omega))]
      · unfold digitsVal at hval ⊢
        rw [List.foldl_append, hval]
        simp only [List.foldl]
        rw [digitChar_toNat (Nat.mod_lt n (by omega))]
        omega

theorem parseNat?_natDigits (n : Nat) : parseNat? (natDigits n) = some n := by
  obtain ⟨hne, hdig, hval⟩ := natDigitsAux_spec (n + 1) n (by omega)
  unfold natDigits parseNat?
  rw [if_neg (by simpa using hne), if_pos hdig, hval]

theorem not_dash_of_isDigit {c : Char} (h : c.isDigit = true) : (c == '-') = false := by
  rw [Bool.eq_false_iff]
  intro hc
  have : c = '-' := eq_of_beq hc
  subst this
  cases h

theorem not_plus_of_isDigit {c : Char} (h : c.isDigit = true) : (c == '+') = false := by
  rw [Bool.eq_false_iff]
  intro hc
  have : c = '+' := eq_of_beq hc
  subst this
  cases h

theorem parseInt?_intChars (i : Int) : parseInt? (intChars i) = some i := by
  unfold intChars
  split
  · rename_i hneg
    unfold parseInt?
    dsimp only
    rw [if_pos (by rfl)]
    rw [parseNat?_natDigits]
    dsimp only
    congr 1
    simp only [Int.ofNat_eq_natCast]
    omega
  · rename_i hnonneg
    obtain ⟨hne, hdig0, _⟩ := natDigitsAux_spec (i.natAbs + 1) i.natAbs (by omega)
    rcases hd : natDigits i.natAbs with _ | ⟨c, rest⟩
    · exact absurd hd hne
    · have hcdig : c.isDigit = true := by
        have hall : ∀ x ∈ natDigits i.natAbs, x.isDigit = true := fun x hx =>
          List.all_eq_true.mp hdig0 x hx
        exact hall c (by rw [hd]; exact List.mem_cons_self _ _)
      have hdash : (c == '-') = false := not_dash_of_isDigit hcdig
      unfold parseInt?
      dsimp only
      rw [if_neg (by rw [hdash]; exact Bool.false_ne_true)]
      rw [← hd, parseNat?_natDigits]
      dsimp only
      congr 1
      simp only [Int.ofNat_eq_natCast]
      omega

theorem splitAtPlus_append (a b : List Char) (ha : ∀ c ∈ a, (c == '+') = false) :
    splitAtPlus (a ++ '+' :: b) = some (a, b) := by
  induction a with
  | nil =>
    unfold splitAtPlus
    simp
  | cons x xs ih =>
    have hx := ha x (List.mem_cons_self x xs)
    unfold splitAtPlus
    rw [List.cons_append]
    simp only [hx]
    rw [if_neg (by simp [hx])]
    rw [ih (fun c hc => ha c (List.mem_cons_of_mem x hc))]

theorem no_plus_intChars (i : Int) : ∀ c ∈ intChars i, (c == '+') = false := by
  intro c hc
  unfold intChars at hc
  obtain ⟨_, hdig, _⟩ := natDigitsAux_spec (i.natAbs + 1) i.natAbs (by omega)
  have hdig' : ∀ c ∈ natDigits i.natAbs, c.isDigit = true := by
    intro d hd
    exact List.all_eq_true.mp hdig d hd
  split at hc
  · rcases List.mem_cons.mp hc with rfl | hmem
    · rfl
    · exact not_plus_of_isDigit (hdig' c hmem)
  · exact not_plus_of_isDigit (hdig' c hc)

theorem fromisoformat_isoformat (dt : PyDateTime) :
    fromisoformat (isoformat dt) = some dt := by
  unfold fromisoformat isoformat
  have hsplit : splitAtPlus (String.mk (intChars (wallMinutes dt) ++
      '+' :: intChars dt.offsetMin)).toList =
      some (intChars (wallMinutes dt), intChars dt.offsetMin) :=
    splitAtPlus_append _ _ (no_plus_intChars _)
  rw [hsplit]
  dsimp only
  rw [parseInt?_intChars, parseInt?_intChars]
  dsimp only
  have hcanc : wallMinutes dt - dt.offsetMin = dt.instant := by
    unfold wallMinutes
    omega
  rw [hcanc]

/-- C9.  Fixture kickoffs are persisted as UTC text: the stored string is the
extracted datetime converted to UTC (`fromisoformat` recovers a zero-offset
datetime of the same instant), and the artifact-generation read path
(`fromisoformat` then `astimezone(TIME_ZONE)`) yields a datetime denoting
exactly the extracted kickoff's instant, re-expressed in the display
timezone. -/
theorem utc_roundtrip :
    (∀ dt : PyDateTime, fromisoformat (storedKickoff dt) = some ⟨dt.instant, 0⟩) ∧
    (∀ (dt : PyDateTime) (tz : PyTimeZone),
      (fromisoformat (storedKickoff dt)).map (fun d => astimezone d tz) =
        some ⟨dt.instant, tz.offsetAt dt.instant⟩) := by
  have h1 : ∀ dt : PyDateTime, fromisoformat (storedKickoff dt) = some ⟨dt.instant, 0⟩ := by
    intro dt
    unfold storedKickoff astimezone UTCzone
    exact fromisoformat_isoformat ⟨dt.instant, 0⟩
  refine ⟨h1, ?_⟩
  intro dt tz
  rw [h1 dt]
  rfl

theorem processFixture_vid (db : DB) (lid : Nat) (fx : FixtureRec) :
    ∀ f ∈ (processFixture db lid none fx).1.fixtures,
      f ∈ db.fixtures ∨ f.venueId = none := by
  rcases hc1 : get_or_create_team db fx.homeName with ⟨db1, o1⟩
  have hfix1 : db1.fixtures = db.fixtures := by
    have := get_or_create_team_fixtures db fx.homeName
    rw [hc1] at this
    exact this
  cases o1 with
  | none =>
    unfold processFixture
    rw [hc1]
    intro f hf
    rw [hfix1] at hf
    exact Or.inl hf
  | some htid =>
    rcases hc2 : get_or_create_team db1 fx.awayName with ⟨db2, o2⟩
    have hfix2 : db2.fixtures = db1.fixtures := by
      have := get_or_create_team_fixtures db1 fx.awayName
      rw [hc2] at this
      exact this
    cases o2 with
    | none =>
      unfold processFixture
      rw [hc1]
      dsimp only
      rw [hc2]
      intro f hf
      rw [hfix2, hfix1] at hf
      exact Or.inl hf
    | some atid =>
      unfold processFixture
      rw [hc1]
      dsimp only
      rw [hc2]
      dsimp only [insert_fixture]
      split
      · intro f hf
        rw [hfix2, hfix1] at hf
        exact Or.inl hf
      · intro f hf
        rcases List.mem_append.mp hf with hold | hnew
        · rw [hfix2, hfix1] at hold
          exact Or.inl hold
        · simp only [List.mem_singleton] at hnew
          subst hnew
          exact Or.inr rfl

theorem processFixtures_vid (fxs : List FixtureRec) :
    ∀ (db : DB) (lid : Nat),
    ∀ f ∈ (processFixtures db lid none fxs).1.fixtures,
      f ∈ db.fixtures ∨ f.venueId = none := by
  induction fxs with
  | nil =>
    intro db lid f hf
    exact Or.inl hf
  | cons fx rest ih =>
    intro db lid
    rcases hc : processFixture db lid none fx with ⟨db1, b⟩
    have hstep : ∀ f ∈ db1.fixtures, f ∈ db.fixtures ∨ f.venueId = none := by
      have := processFixture_vid db lid fx
      rw [hc] at this
      exact this
    cases b with
    | false =>
      unfold processFixtures
      rw [hc]
      exact hstep
    | true =>
      unfold processFixtures
      rw [hc]
      dsimp only
      intro f hf
      rcases ih db1 lid f hf with hm | hn
      · exact hstep f hm
      · exact Or.inr hn

theorem eventLocation_of_none {db : DB} {f : FixtureRow} (h : f.venueId = none) :
    eventLocation db f = DEFAULT_EVENT_LOCATION := by
  unfold eventLocation queryAddress
  rw [h]
  dsimp only
  split <;> rfl

/-- C10.  A venue record without a url (the `{name: "Unknown", url: None}`
sentinel) is never persisted: `get_or_create_venue` inserts nothing and
returns `None`; every fixture stored for such a league carries a NULL
`venue_id`; and the generated event's location for such a fixture falls back
to the configured default address. -/
theorem venue_sentinel_not_persisted (db : DB) (gid : Nat) (lc : LeagueContent)
    (db' : DB) (b : Bool)
    (hurl : lc.venue.url = none)
    (hrun : processLeague db gid lc = (db', b)) :
    get_or_create_venue db lc.venue = (db, none) ∧
    ∀ f ∈ db'.fixtures, f ∉ db.fixtures →
      f.venueId = none ∧ eventLocation db' f = DEFAULT_EVENT_LOCATION := by
  refine ⟨get_or_create_venue_none db hurl, ?_⟩
  rcases hc1 : get_or_create_league db gid lc.name lc.url with ⟨db1, o1⟩
  unfold processLeague at hrun
  rw [hc1] at hrun
  have hfix1 : db1.fixtures = db.fixtures := by
    have := get_or_create_league_fixtures db gid lc.name lc.url
    rw [hc1] at this
    exact this
  cases o1 with
  | none =>
    rw [Prod.mk.injEq] at hrun
    intro f hf hnotin
    rw [← hrun.1, hfix1] at hf
    exact absurd hf hnotin
  | some lid =>
    dsimp only at hrun
    rw [get_or_create_venue_none db1 hurl] at hrun
    intro f hf hnotin
    have hvid : f ∈ db1.fixtures ∨ f.venueId = none := by
      have := processFixtures_vid lc.fixtures db1 lid f
      rw [hrun] at this
      exact this hf
    rcases hvid with hm | hn
    · rw [hfix1] at hm
      exact absurd hm hnotin
    · exact ⟨hn, eventLocation_of_none hn⟩

theorem venue_sentinel_not_persisted_witness :
    get_or_create_venue exDbC10 exLeagueC10.venue = (exDbC10, none) ∧
    ((⟨1, 1, none, 1, 2, "100+0", none⟩ : FixtureRow).venueId = none ∧
      eventLocation (processLeague exDbC10 1 exLeagueC10).1
        ⟨1, 1, none, 1, 2, "100+0", none⟩ = DEFAULT_EVENT_LOCATION) :=
  ⟨(venue_sentinel_not_persisted exDbC10 1 exLeagueC10
      (processLeague exDbC10 1 exLeagueC10).1 (processLeague exDbC10 1 exLeagueC10).2
      rfl rfl).1,
   (venue_sentinel_not_persisted exDbC10 1 exLeagueC10
      (processLeague exDbC10 1 exLeagueC10).1 (processLeague exDbC10 1 exLeagueC10).2
      rfl rfl).2 ⟨1, 1, none, 1, 2, "100+0", none⟩ (by decide) (by decide)⟩
